import Mathlib

/-!
Verification of the full function-inlining pass (`libjulia/optimiser/FullInliner.cpp`).

The pass is embedded shallowly: the mutually recursive statement/expression IR
becomes a pair of inductive types, the stateful visitors become state-passing
functions, and the unbounded C++ recursion is driven by an explicit fuel
parameter (every recursive call consumes one unit; exhaustion yields `none`).
Fatal assertions (`solAssert`) and aborting exceptions are modelled as `none`.
-/

/-- Modelled from the spec: `TypedName` is a (name, type-tag) pair used in
declarations and parameter/return lists (the IR header `AsmData.h` is not part
of `src/`). -/
structure TypedName where
  name : String
  type : String
deriving DecidableEq, Repr

/-- Modelled from the spec: the expression layer of the IR — `Identifier`,
`FunctionalInstruction` (opaque instruction with sub-expression arguments) and
`FunctionCall` (callee name plus ordered argument expressions). Other leaf
expression forms of the full IR are orthogonal to this pass and are omitted;
a nullary `functionalInstruction` serves as an opaque leaf. -/
inductive Expression where
  | identifier (name : String)
  | functionalInstruction (instruction : String) (arguments : List Expression)
  | functionCall (functionName : String) (arguments : List Expression)
deriving Repr

/-- Modelled from the spec: the statement layer of the IR — `Block` (ordered
statement sequence), `VariableDeclaration` (declared typed names and optional
initializer), assignment (used by the spec's scenarios, `a := x`), `ForLoop`
(pre block, condition expression, post block, body block) and
`FunctionDefinition` (name, parameters, return variables, body). -/
inductive Statement where
  | block (statements : List Statement)
  | variableDeclaration (vars : List TypedName) (value : Option Expression)
  | assignment (variableNames : List String) (value : Expression)
  | forLoop (pre : List Statement) (condition : Expression) (post : List Statement)
      (body : List Statement)
  | functionDefinition (name : String) (parameters : List TypedName)
      (returnVariables : List TypedName) (body : List Statement)
deriving Repr

/-- Modelled from C++ `std::to_string` (standard library, not part of `src/`):
the little-endian list of decimal digit characters of `n`, with enough fuel to
consume every digit. -/
def natDigitsLoop : Nat → Nat → List Char
  | 0, _ => []
  | fuel+1, n => if n = 0 then [] else Char.ofNat (48 + n % 10) :: natDigitsLoop fuel (n / 10)

/-- Modelled from C++ `std::to_string` (standard library, not part of `src/`):
decimal representation of a natural number. -/
def natToString (n : Nat) : String :=
  if n = 0 then "0" else String.mk (natDigitsLoop n n).reverse

/-- Inverse of the digit encoding used by `natToString`. -/
def charToDigit (c : Char) : Nat := c.toNat - 48

/-- Decode a decimal string back to the natural number it denotes. -/
def decodeNat (s : String) : Nat := Nat.ofDigits 10 ((s.data.map charToDigit).reverse)

/-- NameDispenser state: the running used-name set (`m_usedNames`), seeded by
the external name collector and extended by every dispensed name. -/
structure NameDispenser where
  usedNames : List String
deriving DecidableEq, Repr

/-- Candidate tried at loop iteration `k` of `NameDispenser::newName`: the
plain hint at `k = 0`, then `hint_1`, `hint_2`, … . -/
def candidateName (p : String) (k : Nat) : String :=
  if k = 0 then p else p ++ "_" ++ natToString k

/-- The `while (name.empty() || m_usedNames.count(name))` loop of
`NameDispenser::newName`, with explicit fuel; iteration `k` tests
`candidateName p k`. -/
def newNameLoop (used : List String) (p : String) : Nat → Nat → String
  | 0, k => candidateName p k
  | fuel+1, k =>
    if candidateName p k = "" ∨ candidateName p k ∈ used then newNameLoop used p fuel (k+1)
    else candidateName p k

/-- `NameDispenser::newName`: find the first candidate that is non-empty and
unused, insert it into the used-name set, and return it.  The fuel
`used.length + 2` always suffices (`newName_spec`). -/
def NameDispenser.newName (d : NameDispenser) (p : String) : String × NameDispenser :=
  let name := newNameLoop d.usedNames p (d.usedNames.length + 2) 0
  (name, ⟨name :: d.usedNames⟩)

/-- FunctionDefinition record as indexed by the driver (`m_functions`): the
pass reads its name, parameters, return variables and (rewrites its) body. -/
structure FunctionDef where
  name : String
  parameters : List TypedName
  returnVariables : List TypedName
  body : List Statement
deriving Repr

/-- Shared pass state: the work-list `m_functionsToVisit` (pending functions,
identified by name — names are unique in well-formed modules), the
name-to-definition index `m_functions` (bodies are updated in place), and the
shared `NameDispenser`. -/
structure FullInlinerState where
  nameDispenser : NameDispenser
  functions : List FunctionDef
  functionsToVisit : List String
deriving Repr

/-- `FullInliner::function(name)`: look up a callee definition; a missing name
is a fatal internal-invariant violation (`none`). -/
def lookupFunction (st : FullInlinerState) (name : String) : Option FunctionDef :=
  st.functions.find? (fun fd => fd.name == name)

/-- Write back a rewritten body through the `m_functions` index (the C++ code
mutates the uniquely-owned definition node in place). -/
def updateFunctionBody (st : FullInlinerState) (name : String) (body : List Statement) :
    FullInlinerState :=
  { st with functions :=
      st.functions.map (fun fd => if fd.name == name then { fd with body := body } else fd) }

/-- `BodyCopier::translateIdentifier`: consult `m_variableReplacements` — a
single map holding both the caller-supplied substitutions and the renamings
registered so far, where later registrations shadow earlier entries — and
otherwise leave the name unchanged. -/
def BodyCopier.translateIdentifier (repl : List (String × String)) (name : String) : String :=
  match repl.lookup name with
  | some n => n
  | none => name

/-- Apply `translateIdentifier` to a list of declared typed names, keeping the
type tags verbatim. -/
def BodyCopier.translateTypedNames (repl : List (String × String)) (vs : List TypedName) :
    List TypedName :=
  vs.map (fun v => ⟨BodyCopier.translateIdentifier repl v.name, v.type⟩)

/-- The registration loop of `BodyCopier::operator()(VariableDeclaration)`:
each declared variable receives a freshly dispensed name (hint: rename tag ++
old name), recorded in the replacement map before the declaration is copied. -/
def BodyCopier.registerVariables (tag : String) :
    List TypedName → List (String × String) → NameDispenser →
    List (String × String) × NameDispenser
  | [], repl, d => (repl, d)
  | v :: vs, repl, d =>
    let p := d.newName (tag ++ v.name)
    BodyCopier.registerVariables tag vs ((v.name, p.1) :: repl) p.2

/-- The inlining eligibility computed at lines 128–131 of `FullInliner.cpp`:
start from `funCall.functionName.name != m_currentFunction`, then clear the
flag unless the callee has exactly one return variable. -/
def doInlineFlag (cur fn : String) (fd : FunctionDef) : Bool :=
  let d : Bool := fn != cur
  if fd.returnVariables.length ≠ 1 then false else d

/-- The loop at lines 149–150 of `FullInliner.cpp`: for each argument index,
map the formal parameter's name to the actual argument's identifier name.  An
argument that is not a bare `Identifier` makes `boost::get<Identifier>` throw
(modelled as `none`); an argument index beyond the parameter list makes
`fun.parameters[i]` undefined behaviour (also modelled as `none`). -/
def buildReplacements : List TypedName → List Expression → Option (List (String × String))
  | _, [] => some []
  | [], _ :: _ => none
  | p :: ps, Expression.identifier n :: as => do
      let rest ← buildReplacements ps as
      some ((p.name, n) :: rest)
  | _ :: _, _ :: _ => none

/-- `InlineModifier::operator()(FunctionCall&)` — the generic-instruction
visitor path.  Reaching it is a fatal internal-invariant violation:
`solAssert(false, "Should be handled in visit() instead.")`. -/
def InlineModifier.genericFunctionCallPath (_functionName : String)
    (_arguments : List Expression) : Option Unit := none

/-- The four mutually recursive copy functions of `BodyCopier`, collected in
one record so that the fuel recursion can be expressed with a plain `Nat.rec`
(which the kernel evaluates efficiently). -/
structure CopyFuns where
  copyExpression : List (String × String) → Expression → Option Expression
  copyExpressionList : List (String × String) → List Expression → Option (List Expression)
  copyStatement : String → List (String × String) → NameDispenser → Statement →
    Option (Statement × List (String × String) × NameDispenser)
  copyStatementList : String → List (String × String) → NameDispenser → List Statement →
    Option (List Statement × List (String × String) × NameDispenser)

/-- Out-of-fuel behaviour of the copier: every copy fails. -/
def copyZero : CopyFuns :=
  ⟨fun _ _ => none, fun _ _ => none, fun _ _ _ _ => none, fun _ _ _ _ => none⟩

/-- One layer of the `BodyCopier` recursion.  Modelled from the spec: the
structural deep copy of `ASTCopier` (`ASTCopier.h` is not part of `src/`)
specialised by `BodyCopier`: every identifier reference — including function
names, which are `Identifier` nodes — is rewritten through
`translateIdentifier`; expressions dispense no names and need no state.
`VariableDeclaration` first registers fresh renamings for all declared
variables (`BodyCopier::operator()`), then performs the structural copy, so
the initializer is copied under the extended map.  A nested
`FunctionDefinition` is a fatal invariant violation (`solAssert`), modelled as
`none`.  The replacement map and the shared dispenser are threaded left to
right through the whole copy. -/
def copyStep (prev : CopyFuns) : CopyFuns where
  copyExpression := fun repl e =>
    match e with
    | .identifier n => some (.identifier (BodyCopier.translateIdentifier repl n))
    | .functionalInstruction ins args => do
        let args' ← prev.copyExpressionList repl args
        some (.functionalInstruction ins args')
    | .functionCall fn args => do
        let args' ← prev.copyExpressionList repl args
        some (.functionCall (BodyCopier.translateIdentifier repl fn) args')
  copyExpressionList := fun repl es =>
    match es with
    | [] => some []
    | e :: es => do
        let e' ← prev.copyExpression repl e
        let es' ← prev.copyExpressionList repl es
        some (e' :: es')
  copyStatement := fun tag repl d s =>
    match s with
    | .block ss => do
        let r ← prev.copyStatementList tag repl d ss
        some (.block r.1, r.2)
    | .variableDeclaration vs value =>
        let p := BodyCopier.registerVariables tag vs repl d
        match value with
        | none => some (.variableDeclaration (BodyCopier.translateTypedNames p.1 vs) none, p)
        | some e => do
            let e' ← prev.copyExpression p.1 e
            some (.variableDeclaration (BodyCopier.translateTypedNames p.1 vs) (some e'), p)
    | .assignment ns e => do
        let e' ← prev.copyExpression repl e
        some (.assignment (ns.map (BodyCopier.translateIdentifier repl)) e', repl, d)
    | .forLoop pre cond post body => do
        let rpre ← prev.copyStatementList tag repl d pre
        let cond' ← prev.copyExpression rpre.2.1 cond
        let rpost ← prev.copyStatementList tag rpre.2.1 rpre.2.2 post
        let rbody ← prev.copyStatementList tag rpost.2.1 rpost.2.2 body
        some (.forLoop rpre.1 cond' rpost.1 rbody.1, rbody.2)
    | .functionDefinition _ _ _ _ => none
  copyStatementList := fun tag repl d ss =>
    match ss with
    | [] => some ([], repl, d)
    | s :: ss => do
        let r ← prev.copyStatement tag repl d s
        let rs ← prev.copyStatementList tag r.2.1 r.2.2 ss
        some (r.1 :: rs.1, rs.2)

/-- The copier at a given recursion depth (fuel). -/
def copyFuns (fuel : Nat) : CopyFuns :=
  Nat.rec copyZero (fun _ prev => copyStep prev) fuel

/-- Fueled entry point for the expression copy. -/
def BodyCopier.copyExpression (fuel : Nat) (repl : List (String × String)) (e : Expression) :
    Option Expression :=
  (copyFuns fuel).copyExpression repl e

/-- Fueled entry point for the expression-list copy. -/
def BodyCopier.copyExpressionList (fuel : Nat) (repl : List (String × String))
    (es : List Expression) : Option (List Expression) :=
  (copyFuns fuel).copyExpressionList repl es

/-- Fueled entry point for the statement copy. -/
def BodyCopier.copyStatement (fuel : Nat) (tag : String) (repl : List (String × String))
    (d : NameDispenser) (s : Statement) :
    Option (Statement × List (String × String) × NameDispenser) :=
  (copyFuns fuel).copyStatement tag repl d s

/-- Fueled entry point for the statement-list copy (`operator()(Block)` body). -/
def BodyCopier.copyStatementList (fuel : Nat) (tag : String) (repl : List (String × String))
    (d : NameDispenser) (ss : List Statement) :
    Option (List Statement × List (String × String) × NameDispenser) :=
  (copyFuns fuel).copyStatementList tag repl d ss

/-- The five mutually recursive visit functions of the pass (the four
`InlineModifier` entry points plus the driver's `handleFunction`), collected
in one record so the fuel recursion is a plain `Nat.rec`. -/
structure PassFuns where
  visitExpression : String → FullInlinerState → Expression →
    Option (Expression × List Statement × FullInlinerState)
  visitArguments : String → List String → List String → Nat → Bool → List Statement →
    FullInlinerState → List Expression →
    Option (List Expression × List Statement × FullInlinerState)
  visitStatement : String → FullInlinerState → Statement →
    Option (Statement × List Statement × FullInlinerState)
  visitBlock : String → FullInlinerState → List Statement →
    Option (List Statement × FullInlinerState)
  handleFunction : FullInlinerState → String → Option FullInlinerState

/-- Out-of-fuel behaviour of the pass: every visit fails. -/
def passZero : PassFuns :=
  ⟨fun _ _ _ => none, fun _ _ _ _ _ _ _ _ => none, fun _ _ _ => none, fun _ _ _ => none,
   fun _ _ => none⟩

/-- One layer of the pass recursion.

`visitExpression` is `InlineModifier::visit(Expression&)` (lines 117–160 of
`FullInliner.cpp`).  A non-call expression takes the generic path: identifiers
are untouched and a `FunctionalInstruction` has its arguments rewritten with
no name hints and `moveToFront = false` (the header's default arguments;
`FullInliner.h` is not part of `src/`).  For a `FunctionCall`: look the callee
up (fatal if absent), let the driver process it first, compute `doInline`,
rewrite the arguments, and if `doInline` holds emit the fresh result
declaration and the body copy into the hoist buffer and replace the call by an
identifier.  The callee record is re-read after each state-changing step,
mirroring the C++ reference `fun` which aliases the live definition node.  The
returned statement list is what the call appended to `m_statementsToPrefix`.

`visitArguments` is `InlineModifier::visitArguments` (lines 162–197): the
argument loop with its state made explicit — current index `i`, the running
`_moveToFront` flag, and the local buffer `pfx`.  An argument whose own
rewrite hoisted statements forces `moveToFront` for all later arguments and
prepends its hoisted statements; otherwise, under `moveToFront`, the argument
is bound to a freshly dispensed temporary whose declaration is prepended.

`visitStatement` is modelled from the spec for the statement forms the base
`ASTModifier` handles (`ASTWalker.h` is not part of `src/`): sub-expressions
are rewritten through `visit(Expression&)` and their hoisted statements
propagate to the enclosing block; sub-blocks are rewritten in place.  The two
overrides of `InlineModifier` are from the source: `operator()(ForLoop&)`
visits `pre`, `post` and `body` but deliberately not `condition` (lines
90–96), and `operator()(Block&)` is `visitBlock` (lines 98–115): visit each
statement in order and splice the statements it hoisted immediately before
it; the spliced statements are not revisited.

`handleFunction` is `FullInliner::handleFunction` (lines 72–78): a function
not in the work-list is skipped with no state change; otherwise it is removed
from the work-list first and an `InlineModifier` whose current-function
context is the function's name rewrites its body, which is written back
through the index.  The C++ version receives the definition node itself; this
embedding keys the work-list by (unique) function name.  One deliberate
simplification: the C++ rewrites the body vector in place through the alias
held by `m_functions`, so a re-entrant clone of a partially processed
function (mutual recursion, the ordering artifact documented by the spec)
would observe partially rewritten statements, while this embedding exposes
the pre-processing body until the function's processing completes.  None of
the verified claims touches that corner. -/
def passStep (fuel : Nat) (prev : PassFuns) : PassFuns where
  visitExpression := fun cur st e =>
    match e with
    | .identifier n => some (.identifier n, [], st)
    | .functionalInstruction ins args => do
        let r ← prev.visitArguments cur [] [] 0 false [] st args
        some (.functionalInstruction ins r.1, r.2)
    | .functionCall fn args => do
        let _fd0 ← lookupFunction st fn
        let st1 ← prev.handleFunction st fn
        let fd ← lookupFunction st1 fn
        let doInline := doInlineFlag cur fn fd
        let argNames := fd.parameters.map (fun p => fd.name ++ "_" ++ p.name)
        let argTypes := fd.parameters.map (fun p => p.type)
        let r ← prev.visitArguments cur argNames argTypes 0 doInline [] st1 args
        if doInline then do
          let fd2 ← lookupFunction r.2.2 fn
          let rv ← fd2.returnVariables.head?
          let prs ← buildReplacements fd2.parameters r.1
          let q := r.2.2.nameDispenser.newName (fd2.name ++ "_" ++ rv.name)
          let rc ← BodyCopier.copyStatementList fuel (fd2.name ++ "_")
            ((rv.name, q.1) :: prs) q.2 fd2.body
          some (.identifier q.1,
            r.2.1 ++ [Statement.variableDeclaration [⟨q.1, rv.type⟩] none,
              Statement.block rc.1],
            { r.2.2 with nameDispenser := rc.2.2 })
        else
          some (.functionCall fn r.1, r.2.1, r.2.2)
  visitArguments := fun cur hints types i mtf pfx st args =>
    match args with
    | [] => some ([], pfx, st)
    | a :: rest => do
        let r ← prev.visitExpression cur st a
        if !r.2.1.isEmpty then do
          let rr ← prev.visitArguments cur hints types (i+1) true (r.2.1 ++ pfx) r.2.2 rest
          some (r.1 :: rr.1, rr.2)
        else if mtf then do
          let q := r.2.2.nameDispenser.newName (hints.getD i "")
          let decl := Statement.variableDeclaration [⟨q.1, types.getD i ""⟩] (some r.1)
          let rr ← prev.visitArguments cur hints types (i+1) mtf
            (decl :: pfx) { r.2.2 with nameDispenser := q.2 } rest
          some (Expression.identifier q.1 :: rr.1, rr.2)
        else do
          let rr ← prev.visitArguments cur hints types (i+1) mtf pfx r.2.2 rest
          some (r.1 :: rr.1, rr.2)
  visitStatement := fun cur st s =>
    match s with
    | .block ss => do
        let r ← prev.visitBlock cur st ss
        some (.block r.1, [], r.2)
    | .variableDeclaration vs none => some (.variableDeclaration vs none, [], st)
    | .variableDeclaration vs (some e) => do
        let r ← prev.visitExpression cur st e
        some (.variableDeclaration vs (some r.1), r.2)
    | .assignment ns e => do
        let r ← prev.visitExpression cur st e
        some (.assignment ns r.1, r.2)
    | .forLoop pre cond post body => do
        let rpre ← prev.visitBlock cur st pre
        let rpost ← prev.visitBlock cur rpre.2 post
        let rbody ← prev.visitBlock cur rpost.2 body
        some (.forLoop rpre.1 cond rpost.1 rbody.1, [], rbody.2)
    | .functionDefinition n ps rs body => do
        let r ← prev.visitBlock cur st body
        some (.functionDefinition n ps rs r.1, [], r.2)
  visitBlock := fun cur st ss =>
    match ss with
    | [] => some ([], st)
    | s :: rest => do
        let r ← prev.visitStatement cur st s
        let rr ← prev.visitBlock cur r.2.2 rest
        some (r.2.1 ++ r.1 :: rr.1, rr.2)
  handleFunction := fun st name =>
    if name ∈ st.functionsToVisit then
      let st1 : FullInlinerState :=
        { st with functionsToVisit := st.functionsToVisit.erase name }
      do
        let fd ← lookupFunction st1 name
        let r ← prev.visitBlock fd.name st1 fd.body
        some (updateFunctionBody r.2 name r.1)
    else some st

/-- The pass visitors at a given recursion depth (fuel). -/
def passFuns (fuel : Nat) : PassFuns :=
  Nat.rec passZero (fun k prev => passStep k prev) fuel

/-- Fueled entry point for `InlineModifier::visit(Expression&)`. -/
def InlineModifier.visitExpression (fuel : Nat) (cur : String) (st : FullInlinerState)
    (e : Expression) : Option (Expression × List Statement × FullInlinerState) :=
  (passFuns fuel).visitExpression cur st e

/-- Fueled entry point for `InlineModifier::visitArguments`. -/
def InlineModifier.visitArguments (fuel : Nat) (cur : String) (hints types : List String)
    (i : Nat) (mtf : Bool) (pfx : List Statement) (st : FullInlinerState)
    (args : List Expression) :
    Option (List Expression × List Statement × FullInlinerState) :=
  (passFuns fuel).visitArguments cur hints types i mtf pfx st args

/-- Fueled entry point for the statement visit. -/
def InlineModifier.visitStatement (fuel : Nat) (cur : String) (st : FullInlinerState)
    (s : Statement) : Option (Statement × List Statement × FullInlinerState) :=
  (passFuns fuel).visitStatement cur st s

/-- Fueled entry point for `InlineModifier::operator()(Block&)`. -/
def InlineModifier.visitBlock (fuel : Nat) (cur : String) (st : FullInlinerState)
    (ss : List Statement) : Option (List Statement × FullInlinerState) :=
  (passFuns fuel).visitBlock cur st ss

/-- Fueled entry point for `FullInliner::handleFunction`. -/
def FullInliner.handleFunction (fuel : Nat) (st : FullInlinerState) (name : String) :
    Option FullInlinerState :=
  (passFuns fuel).handleFunction st name

/-- The four mutually recursive collection functions, in one record for the
`Nat.rec` fuel recursion. -/
structure CollectFuns where
  collectExpression : Expression → List String
  collectExpressionList : List Expression → List String
  collectStatement : Statement → List String
  collectStatementList : List Statement → List String

/-- Out-of-fuel behaviour of the collector: nothing is collected. -/
def collectZero : CollectFuns := ⟨fun _ => [], fun _ => [], fun _ => [], fun _ => []⟩

/-- One layer of the collector recursion.  Modelled from the spec: the
external full-program `NameCollector` (collaborator, not part of `src/`)
gathers every name appearing anywhere in the module to seed the used-name
set. -/
def collectStep (prev : CollectFuns) : CollectFuns where
  collectExpression := fun e =>
    match e with
    | .identifier n => [n]
    | .functionalInstruction _ args => prev.collectExpressionList args
    | .functionCall fn args => fn :: prev.collectExpressionList args
  collectExpressionList := fun es =>
    match es with
    | [] => []
    | e :: es => prev.collectExpression e ++ prev.collectExpressionList es
  collectStatement := fun s =>
    match s with
    | .block ss => prev.collectStatementList ss
    | .variableDeclaration vs none => vs.map (fun v => v.name)
    | .variableDeclaration vs (some e) => vs.map (fun v => v.name) ++ prev.collectExpression e
    | .assignment ns e => ns ++ prev.collectExpression e
    | .forLoop pre cond post body =>
        prev.collectStatementList pre ++ prev.collectExpression cond ++
          prev.collectStatementList post ++ prev.collectStatementList body
    | .functionDefinition n ps rs body =>
        n :: (ps.map (fun v => v.name) ++ rs.map (fun v => v.name) ++
          prev.collectStatementList body)
  collectStatementList := fun ss =>
    match ss with
    | [] => []
    | s :: ss => prev.collectStatement s ++ prev.collectStatementList ss

/-- The collector at a given recursion depth (fuel). -/
def collectFuns (fuel : Nat) : CollectFuns :=
  Nat.rec collectZero (fun _ prev => collectStep prev) fuel

/-- Fueled entry point: names of a statement list (the whole module). -/
def NameCollector.collectStatementList (fuel : Nat) (ss : List Statement) : List String :=
  (collectFuns fuel).collectStatementList ss

/-- The constructor loop of `FullInliner::FullInliner`: index every top-level
function definition. -/
def FullInliner.scanFunctions : List Statement → List FunctionDef
  | [] => []
  | .functionDefinition n ps rs b :: rest => ⟨n, ps, rs, b⟩ :: FullInliner.scanFunctions rest
  | _ :: rest => FullInliner.scanFunctions rest

/-- `FullInliner::FullInliner(Block&)`: seed the dispenser with the collected
names and the work-list with every top-level function. -/
def FullInliner.make (fuel : Nat) (ast : List Statement) : FullInlinerState :=
  { nameDispenser := ⟨NameCollector.collectStatementList fuel ast⟩
    functions := FullInliner.scanFunctions ast
    functionsToVisit := (FullInliner.scanFunctions ast).map (fun fd => fd.name) }

/-- The top-level sweep of `FullInliner::run` (lines 58–67): every top-level
`Block` is rewritten by a fresh `InlineModifier` with empty current-function
context; a top-level statement that is neither a `Block` nor a
`FunctionDefinition` is a fatal assertion. -/
def FullInliner.runStatements : Nat → FullInlinerState → List Statement →
    Option (List Statement × FullInlinerState)
  | 0, _, _ => none
  | _+1, st, [] => some ([], st)
  | fuel+1, st, .block ss :: rest => do
      let r ← InlineModifier.visitBlock fuel "" st ss
      let rr ← FullInliner.runStatements fuel r.2 rest
      some (Statement.block r.1 :: rr.1, rr.2)
  | fuel+1, st, .functionDefinition n ps rs b :: rest => do
      let rr ← FullInliner.runStatements fuel st rest
      some (Statement.functionDefinition n ps rs b :: rr.1, rr.2)
  | _+1, _, _ => none

/-- The drain loop of `FullInliner::run` (lines 68–69): repeatedly handle the
first pending function until the work-list is empty. -/
def FullInliner.drain : Nat → FullInlinerState → Option FullInlinerState
  | 0, _ => none
  | fuel+1, st =>
    match st.functionsToVisit with
    | [] => some st
    | name :: _ => do
        let st' ← FullInliner.handleFunction fuel st name
        FullInliner.drain fuel st'

/-- The whole pass: construct, sweep the top level, drain the work-list, and
read the rewritten function bodies back into the module. -/
def FullInliner.run (fuel : Nat) (ast : List Statement) : Option (List Statement) := do
  let st0 := FullInliner.make fuel ast
  let r ← FullInliner.runStatements fuel st0 ast
  let st2 ← FullInliner.drain fuel r.2
  some (r.1.map (fun s =>
    match s with
    | .functionDefinition n ps rs b =>
      match lookupFunction st2 n with
      | some fd => .functionDefinition n ps rs fd.body
      | none => .functionDefinition n ps rs b
    | s' => s'))

/-- Example callee `f(p1, p2, p3) -> fr { fr := p1 }`: inlinable (one return
variable). -/
def exF : Statement :=
  .functionDefinition "f" [⟨"p1","t"⟩, ⟨"p2","t"⟩, ⟨"p3","t"⟩] [⟨"fr","t"⟩]
    [.assignment ["fr"] (.identifier "p1")]

/-- Example callee `g(q) -> gr { gr := q }`: inlinable (one return variable). -/
def exG : Statement :=
  .functionDefinition "g" [⟨"q","t"⟩] [⟨"gr","t"⟩] [.assignment ["gr"] (.identifier "q")]

/-- The evaluation-order scenario's argument list: `a`, `g(b)`, `c` — only the
middle argument contains a nested inlinable call. -/
def exC3Args : List Expression :=
  [.identifier "a", .functionCall "g" [.identifier "b"], .identifier "c"]

/-- The evaluation-order scenario's call `f(a, g(b), c)`. -/
def exC3Call : Expression := .functionCall "f" exC3Args

/-- Module for the evaluation-order scenario. -/
def exC3Module : List Statement :=
  [exF, exG, .block [.variableDeclaration [⟨"z","t"⟩] (some exC3Call)]]

/-- Pass state constructed from the evaluation-order module. -/
def exC3State : FullInlinerState := FullInliner.make 30 exC3Module

/-- Non-inlinable callee `tw(x) -> a, b { a := x b := x }` (two return
variables), from the spec's `twoRet` scenario. -/
def exTwoRet : Statement :=
  .functionDefinition "tw" [⟨"x","t"⟩] [⟨"a","t"⟩, ⟨"b","t"⟩]
    [.assignment ["a"] (.identifier "x"), .assignment ["b"] (.identifier "x")]

/-- Call of the two-return function with a trivial argument. -/
def exC8Call : Expression := .functionCall "tw" [.identifier "v"]

/-- Module for the two-return scenario. -/
def exC8Module : List Statement :=
  [exTwoRet, .block [.variableDeclaration [⟨"r","t"⟩] (some exC8Call)]]

/-- Pass state constructed from the two-return module. -/
def exC8State : FullInlinerState := FullInliner.make 30 exC8Module

/-- Argument whose nested rewrite hoists statements while the argument itself
stays a `FunctionalInstruction`: `add(g(v), w)`. -/
def exC9Arg : Expression :=
  .functionalInstruction "add" [.functionCall "g" [.identifier "v"], .identifier "w"]

/-- The call `g(add(g(v), w))` whose eligible outer inlining reaches the
`boost::get<Identifier>` extraction on a non-identifier argument. -/
def exC9Call : Expression := .functionCall "g" [exC9Arg]

/-- Module for the nested-hoist scenario. -/
def exC9Module : List Statement :=
  [exG, .block [.variableDeclaration [⟨"z","t"⟩] (some exC9Call)]]

/-- Pass state constructed from the nested-hoist module. -/
def exC9State : FullInlinerState := FullInliner.make 30 exC9Module

/-- An example for-loop whose condition contains an eligible call. -/
def exLoop : Statement :=
  .forLoop [] (.functionCall "g" [.identifier "b"]) [] []

/-- The two-return function's definition record as indexed by the driver. -/
def exC8FD : FunctionDef :=
  ⟨"tw", [⟨"x","t"⟩], [⟨"a","t"⟩, ⟨"b","t"⟩],
    [.assignment ["a"] (.identifier "x"), .assignment ["b"] (.identifier "x")]⟩

/-- The two-return module's state after `handleFunction` has processed `tw`
(the body is unchanged; `tw` has left the work-list). -/
def exC8State1 : FullInlinerState :=
  ⟨⟨["tw", "x", "a", "b", "a", "x", "b", "x", "r", "tw", "v"]⟩, [exC8FD], []⟩

theorem charToDigit_enc (m : Nat) (h : m < 10) : charToDigit (Char.ofNat (48 + m)) = m := by
  interval_cases m <;> rfl

theorem decode_natDigitsLoop (fuel : Nat) :
    ∀ n, n ≤ fuel → Nat.ofDigits 10 ((natDigitsLoop fuel n).map charToDigit) = n := by
  induction fuel with
  | zero =>
      intro n hn
      interval_cases n
      simp [natDigitsLoop, Nat.ofDigits]
  | succ fuel ih =>
      intro n hn
      by_cases h0 : n = 0
      · simp [natDigitsLoop, h0, Nat.ofDigits]
      · have hdiv : n / 10 ≤ fuel := by
          have : n / 10 < n := Nat.div_lt_self (Nat.pos_of_ne_zero h0) (by norm_num)
          omega
        have hmod : n % 10 < 10 := Nat.mod_lt _ (by norm_num)
        simp only [natDigitsLoop, h0, if_false, List.map_cons, Nat.ofDigits_cons,
          ih (n / 10) hdiv, charToDigit_enc (n % 10) hmod]
        omega

theorem decodeNat_natToString (n : Nat) : decodeNat (natToString n) = n := by
  by_cases h0 : n = 0
  · subst h0; rfl
  · unfold natToString decodeNat
    simp only [h0, if_false]
    rw [List.map_reverse, List.reverse_reverse]
    exact decode_natDigitsLoop n n le_rfl

theorem natToString_injective : Function.Injective natToString :=
  Function.LeftInverse.injective decodeNat_natToString

theorem string_data_inj {s t : String} (h : s.data = t.data) : s = t := by
  cases s; cases t; exact congrArg String.mk h

theorem candidateName_pos_ne_empty (p : String) (k : Nat) (hk : k ≠ 0) :
    candidateName p k ≠ "" := by
  unfold candidateName
  simp only [hk, if_false]
  intro h
  have h' := congrArg String.data h
  simp [String.data_append] at h'

theorem candidateName_pos_inj (p : String) {a b : Nat} (ha : a ≠ 0) (hb : b ≠ 0)
    (h : candidateName p a = candidateName p b) : a = b := by
  unfold candidateName at h
  simp only [ha, hb, if_false] at h
  have h' := congrArg String.data h
  simp only [String.data_append] at h'
  have h'' := List.append_cancel_left h'
  exact natToString_injective (string_data_inj h'')

theorem newNameLoop_spec (used : List String) (p : String) :
    ∀ fuel k, (∃ j, k ≤ j ∧ j < k + fuel ∧ candidateName p j ≠ "" ∧ candidateName p j ∉ used) →
    ∃ m, k ≤ m ∧ candidateName p m ≠ "" ∧ candidateName p m ∉ used ∧
      (∀ i, k ≤ i → i < m → (candidateName p i = "" ∨ candidateName p i ∈ used)) ∧
      newNameLoop used p fuel k = candidateName p m := by
  intro fuel
  induction fuel with
  | zero =>
      intro k ⟨j, hj1, hj2, _⟩
      omega
  | succ fuel ih =>
      intro k hex
      by_cases hk : candidateName p k = "" ∨ candidateName p k ∈ used
      · obtain ⟨j, hj1, hj2, hj3, hj4⟩ := hex
        have hjk : j ≠ k := by
          rintro rfl
          rcases hk with h | h
          · exact hj3 h
          · exact hj4 h
        obtain ⟨m, hm1, hm2, hm3, hm4, hm5⟩ := ih (k+1) ⟨j, by omega, by omega, hj3, hj4⟩
        refine ⟨m, by omega, hm2, hm3, ?_, ?_⟩
        · intro i hi1 hi2
          rcases Nat.eq_or_lt_of_le hi1 with rfl | hi1'
          · exact hk
          · exact hm4 i hi1' hi2
        · simpa [newNameLoop, hk] using hm5
      · push_neg at hk
        exact ⟨k, le_rfl, hk.1, hk.2, by omega, by simp [newNameLoop, hk.1, hk.2]⟩

theorem exists_unused_candidate (used : List String) (p : String) :
    ∃ j, 0 ≤ j ∧ j < 0 + (used.length + 2) ∧ candidateName p j ≠ "" ∧ candidateName p j ∉ used := by
  by_contra hcon
  push_neg at hcon
  have hall : ∀ i, i < used.length + 1 → candidateName p (i+1) ∈ used := by
    intro i hi
    have h := hcon (i+1) (by omega) (by omega)
    exact h (candidateName_pos_ne_empty p (i+1) (by omega))
  have hsub : (Finset.range (used.length + 1)).image (fun i => candidateName p (i+1)) ⊆
      used.toFinset := by
    intro x hx
    simp only [Finset.mem_image, Finset.mem_range] at hx
    obtain ⟨i, hi, rfl⟩ := hx
    simpa using hall i hi
  have hcard : ((Finset.range (used.length + 1)).image (fun i => candidateName p (i+1))).card =
      used.length + 1 := by
    rw [Finset.card_image_of_injOn, Finset.card_range]
    intro a _ b _ hab
    have := candidateName_pos_inj p (a := a+1) (b := b+1) (by omega) (by omega) hab
    omega
  have h1 := Finset.card_le_card hsub
  have h2 := used.toFinset_card_le
  omega

/-- Contract of `NameDispenser::newName` (used by the claim theorems): the
returned name is the hint itself when the hint is non-empty and unused,
otherwise the hint suffixed with the smallest workable `_N`, `N ≥ 1`; the
returned name is non-empty, unused at call time, and recorded as used. -/
theorem newName_spec (d : NameDispenser) (p : String) :
    ((p ≠ "" ∧ p ∉ d.usedNames) → (d.newName p).1 = p) ∧
    ((p = "" ∨ p ∈ d.usedNames) →
      ∃ N, 1 ≤ N ∧ (d.newName p).1 = p ++ "_" ++ natToString N ∧
        (∀ M, 1 ≤ M → M < N → (p ++ "_" ++ natToString M) ∈ d.usedNames)) ∧
    (d.newName p).1 ≠ "" ∧ (d.newName p).1 ∉ d.usedNames ∧
    (d.newName p).2.usedNames = (d.newName p).1 :: d.usedNames := by
  obtain ⟨m, hm0, hm1, hm2, hm3, hm4⟩ :=
    newNameLoop_spec d.usedNames p (d.usedNames.length + 2) 0
      (exists_unused_candidate d.usedNames p)
  have hname : (d.newName p).1 = candidateName p m := hm4
  refine ⟨?_, ?_, ?_, ?_, rfl⟩
  · rintro ⟨hp1, hp2⟩
    have hm_zero : m = 0 := by
      by_contra hmz
      have := hm3 0 (by omega) (by omega)
      rcases this with h | h
      · exact hp1 (by simpa [candidateName] using h)
      · exact hp2 (by simpa [candidateName] using h)
    rw [hname, hm_zero]
    simp [candidateName]
  · intro hp
    have hm_pos : m ≠ 0 := by
      rintro rfl
      rcases hp with h | h
      · exact hm1 (by simpa [candidateName] using h)
      · exact hm2 (by simpa [candidateName] using h)
    refine ⟨m, by omega, ?_, ?_⟩
    · rw [hname]
      simp [candidateName, hm_pos]
    · intro M hM1 hM2
      have := hm3 M (by omega) hM2
      rcases this with h | h
      · exact absurd h (candidateName_pos_ne_empty p M (by omega))
      · have hM0 : M ≠ 0 := by omega
        simpa [candidateName, hM0] using h
  · rw [hname]; exact hm1
  · rw [hname]; exact hm2

theorem visitExpression_eq_zero (cur : String) (st : FullInlinerState) (e : Expression) :
    InlineModifier.visitExpression 0 cur st e = none := rfl

theorem visitExpression_eq_identifier (fuel : Nat) (cur : String) (st : FullInlinerState)
    (n : String) :
    InlineModifier.visitExpression (fuel+1) cur st (.identifier n) =
      some (.identifier n, [], st) := rfl

theorem visitExpression_eq_instruction (fuel : Nat) (cur : String) (st : FullInlinerState)
    (ins : String) (args : List Expression) :
    InlineModifier.visitExpression (fuel+1) cur st (.functionalInstruction ins args) =
      (do
        let r ← InlineModifier.visitArguments fuel cur [] [] 0 false [] st args
        some (Expression.functionalInstruction ins r.1, r.2)) := rfl

theorem visitExpression_eq_call (fuel : Nat) (cur : String) (st : FullInlinerState)
    (fn : String) (args : List Expression) :
    InlineModifier.visitExpression (fuel+1) cur st (.functionCall fn args) =
      (do
        let _fd0 ← lookupFunction st fn
        let st1 ← FullInliner.handleFunction fuel st fn
        let fd ← lookupFunction st1 fn
        let doInline := doInlineFlag cur fn fd
        let argNames := fd.parameters.map (fun p => fd.name ++ "_" ++ p.name)
        let argTypes := fd.parameters.map (fun p => p.type)
        let r ← InlineModifier.visitArguments fuel cur argNames argTypes 0 doInline [] st1 args
        if doInline then do
          let fd2 ← lookupFunction r.2.2 fn
          let rv ← fd2.returnVariables.head?
          let prs ← buildReplacements fd2.parameters r.1
          let q := r.2.2.nameDispenser.newName (fd2.name ++ "_" ++ rv.name)
          let rc ← BodyCopier.copyStatementList fuel (fd2.name ++ "_")
            ((rv.name, q.1) :: prs) q.2 fd2.body
          some (.identifier q.1,
            r.2.1 ++ [Statement.variableDeclaration [⟨q.1, rv.type⟩] none,
              Statement.block rc.1],
            { r.2.2 with nameDispenser := rc.2.2 })
        else
          some (.functionCall fn r.1, r.2.1, r.2.2)) := rfl

theorem visitArguments_eq_zero (cur : String) (hints types : List String) (i : Nat)
    (mtf : Bool) (pfx : List Statement) (st : FullInlinerState) (args : List Expression) :
    InlineModifier.visitArguments 0 cur hints types i mtf pfx st args = none := rfl

theorem visitArguments_eq_nil (fuel : Nat) (cur : String) (hints types : List String) (i : Nat)
    (mtf : Bool) (pfx : List Statement) (st : FullInlinerState) :
    InlineModifier.visitArguments (fuel+1) cur hints types i mtf pfx st [] =
      some ([], pfx, st) := rfl

theorem visitArguments_eq_cons (fuel : Nat) (cur : String) (hints types : List String) (i : Nat)
    (mtf : Bool) (pfx : List Statement) (st : FullInlinerState) (a : Expression)
    (rest : List Expression) :
    InlineModifier.visitArguments (fuel+1) cur hints types i mtf pfx st (a :: rest) =
      (do
        let r ← InlineModifier.visitExpression fuel cur st a
        if !r.2.1.isEmpty then do
          let rr ← InlineModifier.visitArguments fuel cur hints types (i+1) true
            (r.2.1 ++ pfx) r.2.2 rest
          some (r.1 :: rr.1, rr.2)
        else if mtf then do
          let q := r.2.2.nameDispenser.newName (hints.getD i "")
          let decl := Statement.variableDeclaration [⟨q.1, types.getD i ""⟩] (some r.1)
          let rr ← InlineModifier.visitArguments fuel cur hints types (i+1) mtf
            (decl :: pfx) { r.2.2 with nameDispenser := q.2 } rest
          some (Expression.identifier q.1 :: rr.1, rr.2)
        else do
          let rr ← InlineModifier.visitArguments fuel cur hints types (i+1) mtf pfx r.2.2 rest
          some (r.1 :: rr.1, rr.2)) := rfl

theorem visitStatement_eq_zero (cur : String) (st : FullInlinerState) (s : Statement) :
    InlineModifier.visitStatement 0 cur st s = none := rfl

theorem visitStatement_eq_block (fuel : Nat) (cur : String) (st : FullInlinerState)
    (ss : List Statement) :
    InlineModifier.visitStatement (fuel+1) cur st (.block ss) =
      (do
        let r ← InlineModifier.visitBlock fuel cur st ss
        some (Statement.block r.1, [], r.2)) := rfl

theorem visitStatement_eq_vardecl_none (fuel : Nat) (cur : String) (st : FullInlinerState)
    (vs : List TypedName) :
    InlineModifier.visitStatement (fuel+1) cur st (.variableDeclaration vs none) =
      some (.variableDeclaration vs none, [], st) := rfl

theorem visitStatement_eq_vardecl_some (fuel : Nat) (cur : String) (st : FullInlinerState)
    (vs : List TypedName) (e : Expression) :
    InlineModifier.visitStatement (fuel+1) cur st (.variableDeclaration vs (some e)) =
      (do
        let r ← InlineModifier.visitExpression fuel cur st e
        some (Statement.variableDeclaration vs (some r.1), r.2)) := rfl

theorem visitStatement_eq_assignment (fuel : Nat) (cur : String) (st : FullInlinerState)
    (ns : List String) (e : Expression) :
    InlineModifier.visitStatement (fuel+1) cur st (.assignment ns e) =
      (do
        let r ← InlineModifier.visitExpression fuel cur st e
        some (Statement.assignment ns r.1, r.2)) := rfl

theorem visitStatement_eq_forloop (fuel : Nat) (cur : String) (st : FullInlinerState)
    (pre : List Statement) (cond : Expression) (post body : List Statement) :
    InlineModifier.visitStatement (fuel+1) cur st (.forLoop pre cond post body) =
      (do
        let rpre ← InlineModifier.visitBlock fuel cur st pre
        let rpost ← InlineModifier.visitBlock fuel cur rpre.2 post
        let rbody ← InlineModifier.visitBlock fuel cur rpost.2 body
        some (Statement.forLoop rpre.1 cond rpost.1 rbody.1, [], rbody.2)) := rfl

theorem visitStatement_eq_fundef (fuel : Nat) (cur : String) (st : FullInlinerState)
    (n : String) (ps rs : List TypedName) (body : List Statement) :
    InlineModifier.visitStatement (fuel+1) cur st (.functionDefinition n ps rs body) =
      (do
        let r ← InlineModifier.visitBlock fuel cur st body
        some (Statement.functionDefinition n ps rs r.1, [], r.2)) := rfl

theorem visitBlock_eq_zero (cur : String) (st : FullInlinerState) (ss : List Statement) :
    InlineModifier.visitBlock 0 cur st ss = none := rfl

theorem visitBlock_eq_nil (fuel : Nat) (cur : String) (st : FullInlinerState) :
    InlineModifier.visitBlock (fuel+1) cur st [] = some ([], st) := rfl

theorem visitBlock_eq_cons (fuel : Nat) (cur : String) (st : FullInlinerState) (s : Statement)
    (rest : List Statement) :
    InlineModifier.visitBlock (fuel+1) cur st (s :: rest) =
      (do
        let r ← InlineModifier.visitStatement fuel cur st s
        let rr ← InlineModifier.visitBlock fuel cur r.2.2 rest
        some (r.2.1 ++ r.1 :: rr.1, rr.2)) := rfl

theorem handleFunction_eq_zero (st : FullInlinerState) (name : String) :
    FullInliner.handleFunction 0 st name = none := rfl

theorem handleFunction_eq_succ (fuel : Nat) (st : FullInlinerState) (name : String) :
    FullInliner.handleFunction (fuel+1) st name =
      (if name ∈ st.functionsToVisit then
        let st1 : FullInlinerState :=
          { st with functionsToVisit := st.functionsToVisit.erase name }
        (do
          let fd ← lookupFunction st1 name
          let r ← InlineModifier.visitBlock fuel fd.name st1 fd.body
          some (updateFunctionBody r.2 name r.1))
      else some st) := rfl

theorem copyExpression_eq_identifier (fuel : Nat) (repl : List (String × String)) (n : String) :
    BodyCopier.copyExpression (fuel+1) repl (.identifier n) =
      some (.identifier (BodyCopier.translateIdentifier repl n)) := rfl

theorem copyStatement_eq_zero (tag : String) (repl : List (String × String))
    (d : NameDispenser) (s : Statement) :
    BodyCopier.copyStatement 0 tag repl d s = none := rfl

theorem copyStatement_eq_vardecl_some (fuel : Nat) (tag : String)
    (repl : List (String × String)) (d : NameDispenser) (vs : List TypedName) (e : Expression) :
    BodyCopier.copyStatement (fuel+1) tag repl d (.variableDeclaration vs (some e)) =
      (do
        let e' ← BodyCopier.copyExpression fuel
          (BodyCopier.registerVariables tag vs repl d).1 e
        some (Statement.variableDeclaration
            (BodyCopier.translateTypedNames (BodyCopier.registerVariables tag vs repl d).1 vs)
            (some e'),
          BodyCopier.registerVariables tag vs repl d)) := rfl

theorem copyStatement_eq_fundef (fuel : Nat) (tag : String) (repl : List (String × String))
    (d : NameDispenser) (n : String) (ps rs : List TypedName) (body : List Statement) :
    BodyCopier.copyStatement (fuel+1) tag repl d (.functionDefinition n ps rs body) =
      none := rfl

theorem copyStatementList_eq_zero (tag : String) (repl : List (String × String))
    (d : NameDispenser) (ss : List Statement) :
    BodyCopier.copyStatementList 0 tag repl d ss = none := rfl

theorem copyStatementList_eq_cons (fuel : Nat) (tag : String) (repl : List (String × String))
    (d : NameDispenser) (s : Statement) (ss : List Statement) :
    BodyCopier.copyStatementList (fuel+1) tag repl d (s :: ss) =
      (do
        let r ← BodyCopier.copyStatement fuel tag repl d s
        let rs ← BodyCopier.copyStatementList fuel tag r.2.1 r.2.2 ss
        some (r.1 :: rs.1, rs.2)) := rfl

/-- Eligibility unfolded: `doInlineFlag` holds exactly when the callee's name
differs from the current function and there is exactly one return variable. -/
theorem doInlineFlag_iff (cur fn : String) (fd : FunctionDef) :
    doInlineFlag cur fn fd = true ↔ (fn ≠ cur ∧ fd.returnVariables.length = 1) := by
  unfold doInlineFlag
  by_cases h : fd.returnVariables.length = 1 <;> simp [h, bne_iff_ne]

/-- Inversion of `InlineModifier::visit(Expression&)` at a `FunctionCall`:
every successful rewrite decomposes into callee lookup, `handleFunction`,
re-lookup, argument rewrite with `moveToFront = doInline`, and then either the
inlining emission (`doInline` true) or the unchanged call (`doInline` false). -/
theorem visitCall_inv {fuel : Nat} {cur : String} {st : FullInlinerState} {fn : String}
    {args : List Expression} {e' : Expression} {pfx : List Statement} {st' : FullInlinerState}
    (h : InlineModifier.visitExpression (fuel+1) cur st (.functionCall fn args) =
      some (e', pfx, st')) :
    ∃ fd0 st1 fd r, lookupFunction st fn = some fd0 ∧
      FullInliner.handleFunction fuel st fn = some st1 ∧
      lookupFunction st1 fn = some fd ∧
      InlineModifier.visitArguments fuel cur
        (fd.parameters.map (fun p => fd.name ++ "_" ++ p.name))
        (fd.parameters.map (fun p => p.type)) 0 (doInlineFlag cur fn fd) [] st1 args = some r ∧
      ((doInlineFlag cur fn fd = true ∧
        ∃ fd2 rv prs rc, lookupFunction r.2.2 fn = some fd2 ∧
          fd2.returnVariables.head? = some rv ∧
          buildReplacements fd2.parameters r.1 = some prs ∧
          BodyCopier.copyStatementList fuel (fd2.name ++ "_")
            ((rv.name, (r.2.2.nameDispenser.newName (fd2.name ++ "_" ++ rv.name)).1) :: prs)
            (r.2.2.nameDispenser.newName (fd2.name ++ "_" ++ rv.name)).2 fd2.body = some rc ∧
          e' = .identifier (r.2.2.nameDispenser.newName (fd2.name ++ "_" ++ rv.name)).1 ∧
          pfx = r.2.1 ++
            [Statement.variableDeclaration
              [⟨(r.2.2.nameDispenser.newName (fd2.name ++ "_" ++ rv.name)).1, rv.type⟩] none,
             Statement.block rc.1] ∧
          st' = { r.2.2 with nameDispenser := rc.2.2 }) ∨
       (doInlineFlag cur fn fd = false ∧ e' = .functionCall fn r.1 ∧ pfx = r.2.1 ∧
        st' = r.2.2)) := by
  rw [visitExpression_eq_call] at h
  cases h0 : lookupFunction st fn with
  | none => rw [h0] at h; simp at h
  | some fd0 =>
  rw [h0] at h
  simp only [Option.bind_eq_bind, Option.some_bind] at h
  cases h1 : FullInliner.handleFunction fuel st fn with
  | none => rw [h1] at h; simp at h
  | some st1 =>
  rw [h1] at h
  simp only [Option.bind_eq_bind, Option.some_bind] at h
  cases h2 : lookupFunction st1 fn with
  | none => rw [h2] at h; simp at h
  | some fd =>
  rw [h2] at h
  simp only [Option.bind_eq_bind, Option.some_bind] at h
  cases h3 : InlineModifier.visitArguments fuel cur
      (fd.parameters.map (fun p => fd.name ++ "_" ++ p.name))
      (fd.parameters.map (fun p => p.type)) 0 (doInlineFlag cur fn fd) [] st1 args with
  | none => rw [h3] at h; simp at h
  | some r =>
  rw [h3] at h
  simp only [Option.bind_eq_bind, Option.some_bind] at h
  refine ⟨fd0, st1, fd, r, rfl, rfl, h2, h3, ?_⟩
  cases hd : doInlineFlag cur fn fd with
  | false =>
      rw [hd] at h
      simp only [Bool.false_eq_true, if_false, Option.some.injEq, Prod.mk.injEq] at h
      exact Or.inr ⟨rfl, h.1.symm, h.2.1.symm, h.2.2.symm⟩
  | true =>
      rw [hd] at h
      simp only [if_true] at h
      cases h4 : lookupFunction r.2.2 fn with
      | none => rw [h4] at h; simp at h
      | some fd2 =>
      rw [h4] at h
      simp only [Option.bind_eq_bind, Option.some_bind] at h
      cases h5 : fd2.returnVariables.head? with
      | none => rw [h5] at h; simp at h
      | some rv =>
      rw [h5] at h
      simp only [Option.bind_eq_bind, Option.some_bind] at h
      cases h6 : buildReplacements fd2.parameters r.1 with
      | none => rw [h6] at h; simp at h
      | some prs =>
      rw [h6] at h
      simp only [Option.bind_eq_bind, Option.some_bind] at h
      cases h7 : BodyCopier.copyStatementList fuel (fd2.name ++ "_")
          ((rv.name, (r.2.2.nameDispenser.newName (fd2.name ++ "_" ++ rv.name)).1) :: prs)
          (r.2.2.nameDispenser.newName (fd2.name ++ "_" ++ rv.name)).2 fd2.body with
      | none => rw [h7] at h; simp at h
      | some rc =>
      rw [h7] at h
      simp only [Option.bind_eq_bind, Option.some_bind, Option.some.injEq, Prod.mk.injEq] at h
      exact Or.inl ⟨rfl, fd2, rv, prs, rc, rfl, h5, h6, h7, h.1.symm, h.2.1.symm, h.2.2.symm⟩

/-- A rewrite that hoists no statements changes nothing: if a visit returns an
empty hoist buffer, the expression (or every argument) is returned unchanged,
and the argument loop's accumulator was empty as well. -/
theorem visit_no_hoist_no_change : ∀ fuel : Nat,
    (∀ cur st e e' st', InlineModifier.visitExpression fuel cur st e = some (e', [], st') →
      e' = e) ∧
    (∀ cur hints types i mtf pfx st args args' st',
      InlineModifier.visitArguments fuel cur hints types i mtf pfx st args =
        some (args', [], st') → args' = args ∧ pfx = []) := by
  intro fuel
  induction fuel with
  | zero =>
      constructor
      · intro cur st e e' st' h
        rw [visitExpression_eq_zero] at h
        exact absurd h (by simp)
      · intro cur hints types i mtf pfx st args args' st' h
        rw [visitArguments_eq_zero] at h
        exact absurd h (by simp)
  | succ fuel ih =>
      obtain ⟨ih1, ih2⟩ := ih
      constructor
      · intro cur st e e' st' h
        match e with
        | .identifier n =>
            rw [visitExpression_eq_identifier] at h
            simp only [Option.some.injEq, Prod.mk.injEq] at h
            exact h.1.symm
        | .functionalInstruction ins args =>
            rw [visitExpression_eq_instruction] at h
            cases h3 : InlineModifier.visitArguments fuel cur [] [] 0 false [] st args with
            | none => rw [h3] at h; simp at h
            | some r =>
                rw [h3] at h
                simp only [Option.bind_eq_bind, Option.some_bind, Option.some.injEq,
                  Prod.mk.injEq] at h
                have hp : r.2.1 = [] := by rw [h.2]
                obtain ⟨r1, rp, rst⟩ := r
                simp only at hp
                subst hp
                have := (ih2 cur [] [] 0 false [] st args r1 rst h3).1
                rw [← h.1, this]
        | .functionCall fn args =>
            obtain ⟨fd0, st1, fd, r, _, _, _, h3, hcase⟩ := visitCall_inv h
            rcases hcase with ⟨_, fd2, rv, prs, rc, _, _, _, _, _, hpfx, _⟩ | ⟨_, he, hpfx, _⟩
            · exact absurd hpfx.symm (by simp)
            · have hp : r.2.1 = [] := hpfx.symm
              obtain ⟨r1, rp, rst⟩ := r
              simp only at hp
              subst hp
              have := (ih2 cur (fd.parameters.map (fun p => fd.name ++ "_" ++ p.name))
                (fd.parameters.map (fun p => p.type)) 0 (doInlineFlag cur fn fd) [] st1 args
                r1 rst h3).1
              rw [he, this]
      · intro cur hints types i mtf pfx st args args' st' h
        match args with
        | [] =>
            rw [visitArguments_eq_nil] at h
            simp only [Option.some.injEq, Prod.mk.injEq] at h
            exact ⟨h.1.symm, h.2.1⟩
        | a :: rest =>
            rw [visitArguments_eq_cons] at h
            cases h1 : InlineModifier.visitExpression fuel cur st a with
            | none => rw [h1] at h; simp at h
            | some r =>
            rw [h1] at h
            simp only [Option.bind_eq_bind, Option.some_bind] at h
            cases hemp : r.2.1.isEmpty with
            | false =>
                rw [if_pos (show (!r.2.1.isEmpty) = true by rw [hemp]; rfl)] at h
                cases h2 : InlineModifier.visitArguments fuel cur hints types (i+1) true
                    (r.2.1 ++ pfx) r.2.2 rest with
                | none => rw [h2] at h; simp at h
                | some rr =>
                    rw [h2] at h
                    simp only [Option.bind_eq_bind, Option.some_bind, Option.some.injEq,
                      Prod.mk.injEq] at h
                    have hrr : rr.2.1 = [] := by rw [h.2]
                    obtain ⟨rr1, rrp, rrst⟩ := rr
                    simp only at hrr
                    subst hrr
                    have hap := (ih2 cur hints types (i+1) true (r.2.1 ++ pfx) r.2.2 rest
                      rr1 rrst h2).2
                    rw [List.append_eq_nil] at hap
                    rw [hap.1] at hemp
                    simp at hemp
            | true =>
                rw [if_neg (show ¬(!r.2.1.isEmpty) = true by rw [hemp]; simp)] at h
                have hrp : r.2.1 = [] := List.isEmpty_iff.mp hemp
                cases hm : mtf with
                | true =>
                    rw [hm, if_pos rfl] at h
                    cases h2 : InlineModifier.visitArguments fuel cur hints types (i+1) true
                        (Statement.variableDeclaration
                          [⟨(r.2.2.nameDispenser.newName (hints.getD i "")).1, types.getD i ""⟩]
                          (some r.1) :: pfx)
                        { r.2.2 with
                          nameDispenser := (r.2.2.nameDispenser.newName (hints.getD i "")).2 }
                        rest with
                    | none => rw [h2] at h; simp at h
                    | some rr =>
                        rw [h2] at h
                        simp only [Option.bind_eq_bind, Option.some_bind, Option.some.injEq,
                          Prod.mk.injEq] at h
                        have hrr : rr.2.1 = [] := by rw [h.2]
                        obtain ⟨rr1, rrp, rrst⟩ := rr
                        simp only at hrr
                        subst hrr
                        have := (ih2 cur hints types (i+1) true _ _ rest rr1 rrst h2).2
                        simp at this
                | false =>
                    rw [hm, if_neg (by simp)] at h
                    cases h2 : InlineModifier.visitArguments fuel cur hints types (i+1) false
                        pfx r.2.2 rest with
                    | none => rw [h2] at h; simp at h
                    | some rr =>
                        rw [h2] at h
                        simp only [Option.bind_eq_bind, Option.some_bind, Option.some.injEq,
                          Prod.mk.injEq] at h
                        have hrr : rr.2.1 = [] := by rw [h.2]
                        obtain ⟨rr1, rrp, rrst⟩ := rr
                        simp only at hrr
                        subst hrr
                        obtain ⟨hrest, hpfx⟩ := ih2 cur hints types (i+1) false pfx r.2.2 rest
                          rr1 rrst h2
                        have ha : r.1 = a := by
                          have hre : r = (r.1, r.2.1, r.2.2) := rfl
                          rw [hre, hrp] at h1
                          exact ih1 cur st a r.1 r.2.2 h1
                        exact ⟨by rw [← h.1, ha, hrest], hpfx⟩

/-- `updateFunctionBody` does not touch the work-list. -/
theorem updateFunctionBody_functionsToVisit (st : FullInlinerState) (n : String)
    (b : List Statement) : (updateFunctionBody st n b).functionsToVisit = st.functionsToVisit :=
  rfl

/-- The work-list never grows: every visit function returns a state whose
pending set is a sublist of the input pending set (entries are only ever
erased by `handleFunction`). -/
theorem visit_pending_sublist : ∀ fuel : Nat,
    (∀ cur st e out, InlineModifier.visitExpression fuel cur st e = some out →
      out.2.2.functionsToVisit.Sublist st.functionsToVisit) ∧
    (∀ cur hints types i mtf pfx st args out,
      InlineModifier.visitArguments fuel cur hints types i mtf pfx st args = some out →
      out.2.2.functionsToVisit.Sublist st.functionsToVisit) ∧
    (∀ cur st s out, InlineModifier.visitStatement fuel cur st s = some out →
      out.2.2.functionsToVisit.Sublist st.functionsToVisit) ∧
    (∀ cur st ss out, InlineModifier.visitBlock fuel cur st ss = some out →
      out.2.functionsToVisit.Sublist st.functionsToVisit) ∧
    (∀ st name st', FullInliner.handleFunction fuel st name = some st' →
      st'.functionsToVisit.Sublist st.functionsToVisit) := by
  intro fuel
  induction fuel with
  | zero =>
      refine ⟨?_, ?_, ?_, ?_, ?_⟩
      · intro cur st e out h
        rw [visitExpression_eq_zero] at h
        exact absurd h (by simp)
      · intro cur hints types i mtf pfx st args out h
        rw [visitArguments_eq_zero] at h
        exact absurd h (by simp)
      · intro cur st s out h
        rw [visitStatement_eq_zero] at h
        exact absurd h (by simp)
      · intro cur st ss out h
        rw [visitBlock_eq_zero] at h
        exact absurd h (by simp)
      · intro st name st' h
        rw [handleFunction_eq_zero] at h
        exact absurd h (by simp)
  | succ fuel ih =>
      obtain ⟨ih1, ih2, ih3, ih4, ih5⟩ := ih
      refine ⟨?_, ?_, ?_, ?_, ?_⟩
      · intro cur st e out h
        match e with
        | .identifier n =>
            rw [visitExpression_eq_identifier] at h
            obtain rfl := Option.some.inj h
            exact List.Sublist.refl _
        | .functionalInstruction ins args =>
            rw [visitExpression_eq_instruction] at h
            cases h3 : InlineModifier.visitArguments fuel cur [] [] 0 false [] st args with
            | none => rw [h3] at h; simp at h
            | some r =>
                rw [h3] at h
                simp only [Option.bind_eq_bind, Option.some_bind] at h
                obtain rfl := Option.some.inj h
                exact ih2 cur [] [] 0 false [] st args r h3
        | .functionCall fn args =>
            obtain ⟨fd0, st1, fd, r, _, h1, _, h3, hcase⟩ := visitCall_inv h
            have hs1 := ih5 st fn st1 h1
            have hs2 := ih2 cur (fd.parameters.map (fun p => fd.name ++ "_" ++ p.name))
              (fd.parameters.map (fun p => p.type)) 0 (doInlineFlag cur fn fd) [] st1 args r h3
            rcases hcase with ⟨_, fd2, rv, prs, rc, _, _, _, _, _, _, hst⟩ | ⟨_, _, _, hst⟩
            · rw [hst]
              exact List.Sublist.trans hs2 hs1
            · rw [hst]
              exact List.Sublist.trans hs2 hs1
      · intro cur hints types i mtf pfx st args out h
        match args with
        | [] =>
            rw [visitArguments_eq_nil] at h
            obtain rfl := Option.some.inj h
            exact List.Sublist.refl _
        | a :: rest =>
            rw [visitArguments_eq_cons] at h
            cases h1 : InlineModifier.visitExpression fuel cur st a with
            | none => rw [h1] at h; simp at h
            | some r =>
            rw [h1] at h
            simp only [Option.bind_eq_bind, Option.some_bind] at h
            have hs1 := ih1 cur st a r h1
            cases hemp : r.2.1.isEmpty with
            | false =>
                rw [if_pos (show (!r.2.1.isEmpty) = true by rw [hemp]; rfl)] at h
                cases h2 : InlineModifier.visitArguments fuel cur hints types (i+1) true
                    (r.2.1 ++ pfx) r.2.2 rest with
                | none => rw [h2] at h; simp at h
                | some rr =>
                    rw [h2] at h
                    simp only [Option.bind_eq_bind, Option.some_bind] at h
                    obtain rfl := Option.some.inj h
                    exact List.Sublist.trans
                      (ih2 cur hints types (i+1) true (r.2.1 ++ pfx) r.2.2 rest rr h2) hs1
            | true =>
                rw [if_neg (show ¬(!r.2.1.isEmpty) = true by rw [hemp]; simp)] at h
                cases hm : mtf with
                | true =>
                    rw [hm, if_pos rfl] at h
                    cases h2 : InlineModifier.visitArguments fuel cur hints types (i+1) true
                        (Statement.variableDeclaration
                          [⟨(r.2.2.nameDispenser.newName (hints.getD i "")).1, types.getD i ""⟩]
                          (some r.1) :: pfx)
                        { r.2.2 with
                          nameDispenser := (r.2.2.nameDispenser.newName (hints.getD i "")).2 }
                        rest with
                    | none => rw [h2] at h; simp at h
                    | some rr =>
                        rw [h2] at h
                        simp only [Option.bind_eq_bind, Option.some_bind] at h
                        obtain rfl := Option.some.inj h
                        exact List.Sublist.trans (ih2 cur hints types (i+1) true _ _ rest rr h2)
                          hs1
                | false =>
                    rw [hm, if_neg (by simp)] at h
                    cases h2 : InlineModifier.visitArguments fuel cur hints types (i+1) false
                        pfx r.2.2 rest with
                    | none => rw [h2] at h; simp at h
                    | some rr =>
                        rw [h2] at h
                        simp only [Option.bind_eq_bind, Option.some_bind] at h
                        obtain rfl := Option.some.inj h
                        exact List.Sublist.trans
                          (ih2 cur hints types (i+1) false pfx r.2.2 rest rr h2) hs1
      · intro cur st s out h
        match s with
        | .block ss =>
            rw [visitStatement_eq_block] at h
            cases h2 : InlineModifier.visitBlock fuel cur st ss with
            | none => rw [h2] at h; simp at h
            | some r =>
                rw [h2] at h
                simp only [Option.bind_eq_bind, Option.some_bind] at h
                obtain rfl := Option.some.inj h
                exact ih4 cur st ss r h2
        | .variableDeclaration vs none =>
            rw [visitStatement_eq_vardecl_none] at h
            obtain rfl := Option.some.inj h
            exact List.Sublist.refl _
        | .variableDeclaration vs (some e) =>
            rw [visitStatement_eq_vardecl_some] at h
            cases h2 : InlineModifier.visitExpression fuel cur st e with
            | none => rw [h2] at h; simp at h
            | some r =>
                rw [h2] at h
                simp only [Option.bind_eq_bind, Option.some_bind] at h
                obtain rfl := Option.some.inj h
                exact ih1 cur st e r h2
        | .assignment ns e =>
            rw [visitStatement_eq_assignment] at h
            cases h2 : InlineModifier.visitExpression fuel cur st e with
            | none => rw [h2] at h; simp at h
            | some r =>
                rw [h2] at h
                simp only [Option.bind_eq_bind, Option.some_bind] at h
                obtain rfl := Option.some.inj h
                exact ih1 cur st e r h2
        | .forLoop pre cond post body =>
            rw [visitStatement_eq_forloop] at h
            cases hpre : InlineModifier.visitBlock fuel cur st pre with
            | none => rw [hpre] at h; simp at h
            | some rpre =>
            rw [hpre] at h
            simp only [Option.bind_eq_bind, Option.some_bind] at h
            cases hpost : InlineModifier.visitBlock fuel cur rpre.2 post with
            | none => rw [hpost] at h; simp at h
            | some rpost =>
            rw [hpost] at h
            simp only [Option.bind_eq_bind, Option.some_bind] at h
            cases hbody : InlineModifier.visitBlock fuel cur rpost.2 body with
            | none => rw [hbody] at h; simp at h
            | some rbody =>
            rw [hbody] at h
            simp only [Option.bind_eq_bind, Option.some_bind] at h
            obtain rfl := Option.some.inj h
            exact List.Sublist.trans (ih4 cur rpost.2 body rbody hbody)
              (List.Sublist.trans (ih4 cur rpre.2 post rpost hpost) (ih4 cur st pre rpre hpre))
        | .functionDefinition n ps rs body =>
            rw [visitStatement_eq_fundef] at h
            cases h2 : InlineModifier.visitBlock fuel cur st body with
            | none => rw [h2] at h; simp at h
            | some r =>
                rw [h2] at h
                simp only [Option.bind_eq_bind, Option.some_bind] at h
                obtain rfl := Option.some.inj h
                exact ih4 cur st body r h2
      · intro cur st ss out h
        match ss with
        | [] =>
            rw [visitBlock_eq_nil] at h
            obtain rfl := Option.some.inj h
            exact List.Sublist.refl _
        | s :: rest =>
            rw [visitBlock_eq_cons] at h
            cases h1 : InlineModifier.visitStatement fuel cur st s with
            | none => rw [h1] at h; simp at h
            | some r =>
            rw [h1] at h
            simp only [Option.bind_eq_bind, Option.some_bind] at h
            cases h2 : InlineModifier.visitBlock fuel cur r.2.2 rest with
            | none => rw [h2] at h; simp at h
            | some rr =>
                rw [h2] at h
                simp only [Option.bind_eq_bind, Option.some_bind] at h
                obtain rfl := Option.some.inj h
                exact List.Sublist.trans (ih4 cur r.2.2 rest rr h2) (ih3 cur st s r h1)
      · intro st name st' h
        rw [handleFunction_eq_succ] at h
        by_cases hmem : name ∈ st.functionsToVisit
        · rw [if_pos hmem] at h
          simp only [] at h
          cases h1 : lookupFunction
              { st with functionsToVisit := st.functionsToVisit.erase name } name with
          | none => rw [h1] at h; simp at h
          | some fd =>
          rw [h1] at h
          simp only [Option.bind_eq_bind, Option.some_bind] at h
          cases h2 : InlineModifier.visitBlock fuel fd.name
              { st with functionsToVisit := st.functionsToVisit.erase name } fd.body with
          | none => rw [h2] at h; simp at h
          | some r =>
              rw [h2] at h
              simp only [Option.bind_eq_bind, Option.some_bind] at h
              obtain rfl := Option.some.inj h
              rw [updateFunctionBody_functionsToVisit]
              exact List.Sublist.trans
                (ih4 fd.name { st with functionsToVisit := st.functionsToVisit.erase name }
                  fd.body r h2)
                (List.erase_sublist name st.functionsToVisit)
        · rw [if_neg hmem] at h
          obtain rfl := Option.some.inj h
          exact List.Sublist.refl _

/-- C1: a `FunctionCall` rewritten by `InlineModifier::visit` is inlined
(replaced by an identifier) if and only if the callee's name differs from the
current-function name and the callee has exactly one return variable; a call
to a function with zero or at least two return variables, or a direct
self-call, is never inlined (it remains a `FunctionCall`). -/
theorem claim_C1_doInline_iff_eligibility (fuel : Nat) (cur : String) (st : FullInlinerState)
    (fn : String) (args : List Expression) (e' : Expression) (pfx : List Statement)
    (st' : FullInlinerState)
    (h : InlineModifier.visitExpression (fuel+1) cur st (.functionCall fn args) =
      some (e', pfx, st')) :
    ∃ st1 fd, FullInliner.handleFunction fuel st fn = some st1 ∧
      lookupFunction st1 fn = some fd ∧
      (doInlineFlag cur fn fd = true ↔ (fn ≠ cur ∧ fd.returnVariables.length = 1)) ∧
      ((∃ v, e' = Expression.identifier v) ↔ doInlineFlag cur fn fd = true) ∧
      ((fn = cur ∨ fd.returnVariables.length ≠ 1) →
        ∃ args', e' = Expression.functionCall fn args') := by
  obtain ⟨fd0, st1, fd, r, h0, h1, h2, h3, hcase⟩ := visitCall_inv h
  refine ⟨st1, fd, h1, h2, doInlineFlag_iff cur fn fd, ?_, ?_⟩
  · constructor
    · rintro ⟨v, rfl⟩
      rcases hcase with ⟨hflag, _⟩ | ⟨_, he, _⟩
      · exact hflag
      · exact absurd he (by simp)
    · intro hflag
      rcases hcase with ⟨_, fd2, rv, prs, rc, _, _, _, _, he, _, _⟩ | ⟨hflag', _, _⟩
      · exact ⟨_, he⟩
      · rw [hflag] at hflag'
        exact absurd hflag' (by simp)
  · intro hcond
    have hflag : doInlineFlag cur fn fd = false := by
      cases hfl : doInlineFlag cur fn fd with
      | false => rfl
      | true =>
          obtain ⟨hne, hlen⟩ := (doInlineFlag_iff cur fn fd).mp hfl
          rcases hcond with hc | hc
          · exact absurd hc hne
          · exact absurd hlen hc
    rcases hcase with ⟨hflag', _⟩ | ⟨_, he, _⟩
    · rw [hflag] at hflag'
      exact absurd hflag' (by simp)
    · exact ⟨r.1, he⟩

/-- C2: for an eligible call, after argument rewriting the hoist buffer
receives, in order: the (possibly non-empty) argument prefix, an
uninitialized `VariableDeclaration` for the freshly dispensed result name
(hint `calleeName ++ "_" ++ returnVarName`, with the return variable's type),
then the `BodyCopier` copy of the callee's body under the substitution map
sending each formal parameter to the actual argument's identifier and the
sole return variable to the fresh result name, with rename tag
`calleeName ++ "_"`; the call expression is replaced by an identifier
referencing the fresh result name. -/
theorem claim_C2_inline_emission (fuel : Nat) (cur : String) (st : FullInlinerState)
    (fn : String) (args : List Expression) (e' : Expression) (pfx : List Statement)
    (st' : FullInlinerState)
    (h : InlineModifier.visitExpression (fuel+1) cur st (.functionCall fn args) =
      some (e', pfx, st')) :
    ∃ st1 fd r, FullInliner.handleFunction fuel st fn = some st1 ∧
      lookupFunction st1 fn = some fd ∧
      InlineModifier.visitArguments fuel cur
        (fd.parameters.map (fun p => fd.name ++ "_" ++ p.name))
        (fd.parameters.map (fun p => p.type)) 0 (doInlineFlag cur fn fd) [] st1 args = some r ∧
      (doInlineFlag cur fn fd = true →
        ∃ fd2 rv prs rc, lookupFunction r.2.2 fn = some fd2 ∧
          fd2.returnVariables.head? = some rv ∧
          buildReplacements fd2.parameters r.1 = some prs ∧
          BodyCopier.copyStatementList fuel (fd2.name ++ "_")
            ((rv.name, (r.2.2.nameDispenser.newName (fd2.name ++ "_" ++ rv.name)).1) :: prs)
            (r.2.2.nameDispenser.newName (fd2.name ++ "_" ++ rv.name)).2 fd2.body = some rc ∧
          e' = .identifier (r.2.2.nameDispenser.newName (fd2.name ++ "_" ++ rv.name)).1 ∧
          pfx = r.2.1 ++
            [Statement.variableDeclaration
              [⟨(r.2.2.nameDispenser.newName (fd2.name ++ "_" ++ rv.name)).1, rv.type⟩] none,
             Statement.block rc.1] ∧
          st' = { r.2.2 with nameDispenser := rc.2.2 }) := by
  obtain ⟨fd0, st1, fd, r, h0, h1, h2, h3, hcase⟩ := visitCall_inv h
  refine ⟨st1, fd, r, h1, h2, h3, ?_⟩
  intro hflag
  rcases hcase with ⟨_, fd2, rv, prs, rc, h4, h5, h6, h7, he, hp, hs⟩ | ⟨hflag', _, _⟩
  · exact ⟨fd2, rv, prs, rc, h4, h5, h6, h7, he, hp, hs⟩
  · rw [hflag] at hflag'
    exact absurd hflag' (by simp)

/-- C8: for a call that is not inlined (`doInline` false) the expression
remains a `FunctionCall`; and when the argument rewrite hoisted nothing, the
arguments are returned unchanged (no statements are added and no argument is
renamed). -/
theorem claim_C8_no_inline_frame (fuel : Nat) (cur : String) (st : FullInlinerState)
    (fn : String) (args : List Expression) (e' : Expression) (pfx : List Statement)
    (st' : FullInlinerState)
    (h : InlineModifier.visitExpression (fuel+1) cur st (.functionCall fn args) =
      some (e', pfx, st')) :
    ∃ st1 fd r, FullInliner.handleFunction fuel st fn = some st1 ∧
      lookupFunction st1 fn = some fd ∧
      InlineModifier.visitArguments fuel cur
        (fd.parameters.map (fun p => fd.name ++ "_" ++ p.name))
        (fd.parameters.map (fun p => p.type)) 0 (doInlineFlag cur fn fd) [] st1 args = some r ∧
      (doInlineFlag cur fn fd = false →
        e' = Expression.functionCall fn r.1 ∧ pfx = r.2.1 ∧ st' = r.2.2 ∧
          (pfx = [] → r.1 = args)) := by
  obtain ⟨fd0, st1, fd, r, h0, h1, h2, h3, hcase⟩ := visitCall_inv h
  refine ⟨st1, fd, r, h1, h2, h3, ?_⟩
  intro hflag
  rcases hcase with ⟨hflag', _⟩ | ⟨_, he, hp, hs⟩
  · rw [hflag] at hflag'
    exact absurd hflag' (by simp)
  · refine ⟨he, hp, hs, ?_⟩
    intro hnil
    rw [hflag] at h3
    have hr : r.2.1 = [] := by rw [← hp, hnil]
    obtain ⟨r1, rp, rst⟩ := r
    simp only at hr
    subst hr
    exact ((visit_no_hoist_no_change fuel).2 cur
      (fd.parameters.map (fun p => fd.name ++ "_" ++ p.name))
      (fd.parameters.map (fun p => p.type)) 0 false [] st1 args r1 rst h3).1

/-- C5: `InlineModifier::operator()(ForLoop&)` visits the pre block, the post
block and the body block (in that order), never the condition expression: the
condition is returned unchanged and the for-loop statement hoists nothing into
the enclosing block, so a call occurring only in the condition is never
inlined and never causes hoisting. -/
theorem claim_C5_loop_condition_excluded (fuel : Nat) (cur : String) (st : FullInlinerState)
    (pre : List Statement) (cond : Expression) (post : List Statement) (body : List Statement)
    (out : Statement × List Statement × FullInlinerState)
    (h : InlineModifier.visitStatement (fuel+1) cur st (.forLoop pre cond post body) =
      some out) :
    ∃ rpre rpost rbody,
      InlineModifier.visitBlock fuel cur st pre = some rpre ∧
      InlineModifier.visitBlock fuel cur rpre.2 post = some rpost ∧
      InlineModifier.visitBlock fuel cur rpost.2 body = some rbody ∧
      out = (.forLoop rpre.1 cond rpost.1 rbody.1, [], rbody.2) := by
  rw [visitStatement_eq_forloop] at h
  cases hpre : InlineModifier.visitBlock fuel cur st pre with
  | none => rw [hpre] at h; simp at h
  | some rpre =>
  rw [hpre] at h
  simp only [Option.bind_eq_bind, Option.some_bind] at h
  cases hpost : InlineModifier.visitBlock fuel cur rpre.2 post with
  | none => rw [hpost] at h; simp at h
  | some rpost =>
  rw [hpost] at h
  simp only [Option.bind_eq_bind, Option.some_bind] at h
  cases hbody : InlineModifier.visitBlock fuel cur rpost.2 body with
  | none => rw [hbody] at h; simp at h
  | some rbody =>
  rw [hbody] at h
  simp only [Option.bind_eq_bind, Option.some_bind] at h
  exact ⟨rpre, rpost, rbody, rfl, hpost, hbody, (Option.some.inj h).symm⟩

/-- C7: the two defensive paths are fatal and admit no partial result: a
`FunctionCall` reaching the generic-instruction visitor aborts
(`solAssert(false)`), and a nested `FunctionDefinition` encountered by
`BodyCopier` aborts the whole copy — any statement sequence containing one
yields `none`, whatever was already copied. -/
theorem claim_C7_fatal_assertions :
    (∀ fn args, InlineModifier.genericFunctionCallPath fn args = none) ∧
    (∀ fuel tag repl d n ps rs body,
      BodyCopier.copyStatement fuel tag repl d (.functionDefinition n ps rs body) = none) ∧
    (∀ fuel tag repl d l1 n ps rs body l2,
      BodyCopier.copyStatementList fuel tag repl d
        (l1 ++ Statement.functionDefinition n ps rs body :: l2) = none) := by
  have hstmt : ∀ fuel tag repl d n ps rs body,
      BodyCopier.copyStatement fuel tag repl d (.functionDefinition n ps rs body) = none := by
    intro fuel tag repl d n ps rs body
    cases fuel with
    | zero => rw [copyStatement_eq_zero]
    | succ fuel => rw [copyStatement_eq_fundef]
  refine ⟨fun _ _ => rfl, hstmt, ?_⟩
  intro fuel tag repl d l1
  induction l1 generalizing fuel repl d with
  | nil =>
      intro n ps rs body l2
      cases fuel with
      | zero => rw [copyStatementList_eq_zero]
      | succ fuel =>
          rw [List.nil_append, copyStatementList_eq_cons, hstmt]
          rfl
  | cons s l1 ih =>
      intro n ps rs body l2
      cases fuel with
      | zero => rw [copyStatementList_eq_zero]
      | succ fuel =>
          rw [List.cons_append, copyStatementList_eq_cons]
          cases h1 : BodyCopier.copyStatement fuel tag repl d s with
          | none => rfl
          | some r =>
              simp only [Option.bind_eq_bind, Option.some_bind]
              rw [ih fuel r.2.1 r.2.2 n ps rs body l2]
              rfl

/-- C4: the `NameDispenser::newName` contract — the hint itself when non-empty
and unused, else the hint with the smallest `_N` suffix (`N ≥ 1`) whose
candidate is unused; the returned name is non-empty, differs from every name
in the used set at call time (so from every seed name and every previously
dispensed name of the run), and is inserted into the used-name set. -/
theorem claim_C4_newName_contract (d : NameDispenser) (p : String) :
    ((p ≠ "" ∧ p ∉ d.usedNames) → (d.newName p).1 = p) ∧
    ((p = "" ∨ p ∈ d.usedNames) →
      ∃ N, 1 ≤ N ∧ (d.newName p).1 = p ++ "_" ++ natToString N ∧
        (p ++ "_" ++ natToString N) ∉ d.usedNames ∧
        (∀ M, 1 ≤ M → M < N → (p ++ "_" ++ natToString M) ∈ d.usedNames)) ∧
    (d.newName p).1 ≠ "" ∧
    (∀ x, x ∈ d.usedNames → (d.newName p).1 ≠ x) ∧
    (d.newName p).2.usedNames = (d.newName p).1 :: d.usedNames := by
  obtain ⟨h1, h2, h3, h4, h5⟩ := newName_spec d p
  refine ⟨h1, ?_, h3, ?_, h5⟩
  · intro hp
    obtain ⟨N, hN1, hN2, hN3⟩ := h2 hp
    exact ⟨N, hN1, hN2, hN2 ▸ h4, hN3⟩
  · intro x hx heq
    exact h4 (heq ▸ hx)

/-- Witness for C4 at concrete inputs: the fresh hint "b" is returned
verbatim; the used hint "a" gets suffix 1. -/
theorem claim_C4_newName_contract_witness :
    (NameDispenser.mk ["a"]).newName "b" = ("b", ⟨["b", "a"]⟩) ∧
    (∃ N, 1 ≤ N ∧ ((NameDispenser.mk ["a"]).newName "a").1 = "a" ++ "_" ++ natToString N ∧
      ("a" ++ "_" ++ natToString N) ∉ ["a"] ∧
      (∀ M, 1 ≤ M → M < N → ("a" ++ "_" ++ natToString M) ∈ ["a"])) := by
  constructor
  · have h := (claim_C4_newName_contract ⟨["a"]⟩ "b").1 ⟨by decide, by decide⟩
    have h2 := (claim_C4_newName_contract ⟨["a"]⟩ "b").2.2.2.2
    rw [Prod.ext_iff]
    exact ⟨h, by rw [NameDispenser.mk.injEq, h2, h]⟩
  · exact (claim_C4_newName_contract ⟨["a"]⟩ "a").2.1 (Or.inr (by decide))

/-- C6: the work-scheduling contract of `handleFunction` and the drain loop:
a function not in the work-list is skipped without any state change; a pending
function is removed from the work-list first and its body is then rewritten by
an `InlineModifier` whose current-function context is that function's name,
the result being written back; once handled, a function is never pending again
(given a duplicate-free work-list), so it is processed at most once; and
whenever the drain loop of `run` terminates, the work-list has been emptied —
every seeded function was processed. -/
theorem claim_C6_handleFunction_once :
    (∀ fuel (st : FullInlinerState) name, name ∉ st.functionsToVisit →
      FullInliner.handleFunction (fuel+1) st name = some st) ∧
    (∀ fuel (st : FullInlinerState) name st', name ∈ st.functionsToVisit →
      FullInliner.handleFunction (fuel+1) st name = some st' →
      ∃ fd r, lookupFunction
          { st with functionsToVisit := st.functionsToVisit.erase name } name = some fd ∧
        fd.name = name ∧
        InlineModifier.visitBlock fuel fd.name
          { st with functionsToVisit := st.functionsToVisit.erase name } fd.body = some r ∧
        st' = updateFunctionBody r.2 name r.1) ∧
    (∀ fuel (st : FullInlinerState) name st', st.functionsToVisit.Nodup →
      FullInliner.handleFunction fuel st name = some st' → name ∉ st'.functionsToVisit) ∧
    (∀ fuel (st : FullInlinerState) st', FullInliner.drain fuel st = some st' →
      st'.functionsToVisit = []) := by
  have hskip : ∀ fuel (st : FullInlinerState) name, name ∉ st.functionsToVisit →
      FullInliner.handleFunction (fuel+1) st name = some st := by
    intro fuel st name hmem
    rw [handleFunction_eq_succ, if_neg hmem]
  refine ⟨hskip, ?_, ?_, ?_⟩
  · intro fuel st name st' hmem h
    rw [handleFunction_eq_succ, if_pos hmem] at h
    simp only [] at h
    cases h1 : lookupFunction
        { st with functionsToVisit := st.functionsToVisit.erase name } name with
    | none => rw [h1] at h; simp at h
    | some fd =>
    rw [h1] at h
    simp only [Option.bind_eq_bind, Option.some_bind] at h
    cases h2 : InlineModifier.visitBlock fuel fd.name
        { st with functionsToVisit := st.functionsToVisit.erase name } fd.body with
    | none => rw [h2] at h; simp at h
    | some r =>
        rw [h2] at h
        simp only [Option.bind_eq_bind, Option.some_bind] at h
        have hname : fd.name = name := by
          have := List.find?_some h1
          exact eq_of_beq this
        exact ⟨fd, r, rfl, hname, h2, (Option.some.inj h).symm⟩
  · intro fuel st name st' hnodup h
    cases fuel with
    | zero =>
        rw [handleFunction_eq_zero] at h
        exact absurd h (by simp)
    | succ fuel =>
        by_cases hmem : name ∈ st.functionsToVisit
        · rw [handleFunction_eq_succ, if_pos hmem] at h
          simp only [] at h
          cases h1 : lookupFunction
              { st with functionsToVisit := st.functionsToVisit.erase name } name with
          | none => rw [h1] at h; simp at h
          | some fd =>
          rw [h1] at h
          simp only [Option.bind_eq_bind, Option.some_bind] at h
          cases h2 : InlineModifier.visitBlock fuel fd.name
              { st with functionsToVisit := st.functionsToVisit.erase name } fd.body with
          | none => rw [h2] at h; simp at h
          | some r =>
              rw [h2] at h
              simp only [Option.bind_eq_bind, Option.some_bind] at h
              obtain rfl := (Option.some.inj h).symm
              rw [updateFunctionBody_functionsToVisit]
              intro hmem'
              have hsub := ((visit_pending_sublist fuel).2.2.2.1 fd.name
                { st with functionsToVisit := st.functionsToVisit.erase name } fd.body r
                h2).subset
              exact hnodup.not_mem_erase (hsub hmem')
        · rw [hskip fuel st name hmem] at h
          obtain rfl := Option.some.inj h
          exact hmem
  · intro fuel
    induction fuel with
    | zero =>
        intro st st' h
        rw [FullInliner.drain.eq_1] at h
        exact absurd h (by simp)
    | succ fuel ih =>
        intro st st' h
        rw [FullInliner.drain.eq_2] at h
        cases hp : st.functionsToVisit with
        | nil =>
            rw [hp] at h
            obtain rfl := Option.some.inj h
            exact hp
        | cons nm rest =>
            rw [hp] at h
            simp only [Option.bind_eq_bind] at h
            cases h1 : FullInliner.handleFunction fuel st nm with
            | none => rw [h1] at h; simp at h
            | some stm =>
                rw [h1] at h
                simp only [Option.some_bind] at h
                exact ih stm st' h

theorem string_length_data (s : String) : s.length = s.data.length := rfl

theorem string_length_append (a b : String) : (a ++ b).length = a.length + b.length := by
  rw [string_length_data, string_length_data, string_length_data, String.data_append,
    List.length_append]

theorem candidateName_length_ge (p : String) (k : Nat) :
    p.length ≤ (candidateName p k).length := by
  unfold candidateName
  by_cases hk : k = 0
  · simp [hk]
  · simp only [hk, if_false]
    rw [string_length_append, string_length_append]
    omega

theorem newName_length_ge (d : NameDispenser) (p : String) :
    p.length ≤ (d.newName p).1.length := by
  obtain ⟨m, _, _, _, _, h5⟩ := newNameLoop_spec d.usedNames p (d.usedNames.length + 2) 0
    (exists_unused_candidate d.usedNames p)
  show p.length ≤ (newNameLoop d.usedNames p (d.usedNames.length + 2) 0).length
  rw [h5]
  exact candidateName_length_ge p m

/-- C10: `BodyCopier::operator()(VariableDeclaration)` registers the fresh
renaming of the declared variable before the initializer is copied, so an
identifier in the initializer bearing the declared variable's own name is
rewritten to the new fresh name (not left referring to an outer binding); the
fresh name differs from the old one whenever the rename tag is non-empty. -/
theorem claim_C10_decl_initializer_renamed (fuel : Nat) (tag : String)
    (repl : List (String × String)) (d : NameDispenser) (n t : String) :
    BodyCopier.copyStatement (fuel+2) tag repl d
        (.variableDeclaration [⟨n, t⟩] (some (.identifier n))) =
      some (.variableDeclaration [⟨(d.newName (tag ++ n)).1, t⟩]
          (some (.identifier (d.newName (tag ++ n)).1)),
        (n, (d.newName (tag ++ n)).1) :: repl, (d.newName (tag ++ n)).2) ∧
    (tag ≠ "" → (d.newName (tag ++ n)).1 ≠ n) := by
  constructor
  · rw [copyStatement_eq_vardecl_some]
    rw [copyExpression_eq_identifier]
    simp only [BodyCopier.registerVariables, BodyCopier.translateTypedNames,
      BodyCopier.translateIdentifier, List.map, List.lookup, beq_self_eq_true,
      Option.bind_eq_bind, Option.some_bind]
  · intro htag heq
    have h1 := newName_length_ge d (tag ++ n)
    rw [heq, string_length_append] at h1
    have htl : tag.length ≠ 0 := by
      intro h0
      apply htag
      apply string_data_inj
      rw [string_length_data] at h0
      simpa using List.length_eq_zero.mp h0
    omega

/-- Witness for C10: copying `let x := x` under rename tag `g_` with the seed
used set `{x}` declares the fresh `g_x` and rewrites the initializer to `g_x`. -/
theorem claim_C10_witness :
    BodyCopier.copyStatement 2 "g_" [] ⟨["x"]⟩
        (.variableDeclaration [⟨"x", "t"⟩] (some (.identifier "x"))) =
      some (.variableDeclaration
          [⟨((NameDispenser.mk ["x"]).newName ("g_" ++ "x")).1, "t"⟩]
          (some (.identifier ((NameDispenser.mk ["x"]).newName ("g_" ++ "x")).1)),
        ("x", ((NameDispenser.mk ["x"]).newName ("g_" ++ "x")).1) :: [],
        ((NameDispenser.mk ["x"]).newName ("g_" ++ "x")).2) ∧
    ((NameDispenser.mk ["x"]).newName ("g_" ++ "x")).1 ≠ "x" :=
  ⟨(claim_C10_decl_initializer_renamed 0 "g_" [] ⟨["x"]⟩ "x" "t").1,
   (claim_C10_decl_initializer_renamed 0 "g_" [] ⟨["x"]⟩ "x" "t").2 (by decide)⟩

set_option maxRecDepth 8000 in
/-- C3 counterexample: for `f(a, g(b), c)` (only the middle argument contains
a nested inlinable call, `doInline` holds for `f`) the hoisted prefix binds
`c` first, then performs `g(b)`'s inlined side effects, then binds `a` — the
claimed left-to-right order `a`, then `b`, then `c` is false; the first
hoisted statement evaluates `c`, and the binding of `a` comes only fifth. -/
theorem claim_C3_counterexample :
    (InlineModifier.visitExpression 30 "" exC3State exC3Call).map
        (fun r => (r.1, r.2.1)) =
      some (.identifier "f_fr",
        [Statement.variableDeclaration [⟨"f_p3","t"⟩] (some (.identifier "c")),
         Statement.variableDeclaration [⟨"g_q","t"⟩] (some (.identifier "b")),
         Statement.variableDeclaration [⟨"g_gr","t"⟩] none,
         Statement.block [.assignment ["g_gr"] (.identifier "g_q")],
         Statement.variableDeclaration [⟨"f_p1","t"⟩] (some (.identifier "a")),
         Statement.variableDeclaration [⟨"f_fr","t"⟩] none,
         Statement.block [.assignment ["f_fr"] (.identifier "f_p1")]]) := rfl

set_option maxRecDepth 8000 in
/-- C3 amended: the hoisted prefix evaluates the arguments right to left —
`c` bound to its fresh temporary first, then `b`'s inlined side effects (its
value in the fresh result variable `g_gr`), then `a` bound to its fresh
temporary — followed by the emission for the inlined call itself, before the
call's replacement; each prefix for a later argument is prepended, matching
the comment "we go through the arguments left to right, so we have to invert
the prefixes". -/
theorem claim_C3_amended_right_to_left :
    (InlineModifier.visitExpression 30 "" exC3State exC3Call).map
        (fun r => (r.1, r.2.1)) =
      some (.identifier "f_fr",
        [Statement.variableDeclaration [⟨"f_p3","t"⟩] (some (.identifier "c"))] ++
        [Statement.variableDeclaration [⟨"g_q","t"⟩] (some (.identifier "b")),
         Statement.variableDeclaration [⟨"g_gr","t"⟩] none,
         Statement.block [.assignment ["g_gr"] (.identifier "g_q")]] ++
        [Statement.variableDeclaration [⟨"f_p1","t"⟩] (some (.identifier "a"))] ++
        [Statement.variableDeclaration [⟨"f_fr","t"⟩] none,
         Statement.block [.assignment ["f_fr"] (.identifier "f_p1")]]) := rfl

set_option maxRecDepth 8000 in
/-- C9 refutation (code bug): for the eligible call `g(add(g(v), w))`, the
argument's nested rewrite hoists statements but the argument itself remains a
`FunctionalInstruction` (not a bare identifier) after `visitArguments`; the
parameter-substitution build (`boost::get<Identifier>`) therefore fails and
the visit aborts, contradicting the implicit safety assumption. -/
theorem claim_C9_get_identifier_fails :
    ((FullInliner.handleFunction 29 exC9State "g").bind (fun st1 =>
        InlineModifier.visitArguments 29 "" ["g_q"] ["t"] 0 true [] st1 [exC9Arg])).map
        (fun r => r.1) =
      some [Expression.functionalInstruction "add"
        [.identifier "g_gr", .identifier "_1"]] ∧
    buildReplacements [⟨"q","t"⟩]
      [Expression.functionalInstruction "add" [.identifier "g_gr", .identifier "_1"]] = none ∧
    InlineModifier.visitExpression 30 "" exC9State exC9Call = none :=
  ⟨rfl, rfl, rfl⟩

/-- Witness for C1: the eligible call `f(a, g(b), c)` of the evaluation-order
module is inlined (its rewrite is an identifier). -/
theorem claim_C1_witness :
    ∃ st1 fd, FullInliner.handleFunction 29 exC3State "f" = some st1 ∧
      lookupFunction st1 "f" = some fd ∧
      (doInlineFlag "" "f" fd = true ↔ ("f" ≠ "" ∧ fd.returnVariables.length = 1)) ∧
      ((∃ v, Expression.identifier "f_fr" = Expression.identifier v) ↔
        doInlineFlag "" "f" fd = true) ∧
      (("f" = "" ∨ fd.returnVariables.length ≠ 1) →
        ∃ args', Expression.identifier "f_fr" = Expression.functionCall "f" args') :=
  claim_C1_doInline_iff_eligibility 29 "" exC3State "f" exC3Args _ _ _ rfl

/-- Witness for C2: the inlining emission at the concrete call `f(a, g(b), c)`. -/
theorem claim_C2_witness :
    ∃ e' pfx st', InlineModifier.visitExpression 30 "" exC3State exC3Call =
        some (e', pfx, st') ∧
      ∃ st1 fd r, FullInliner.handleFunction 29 exC3State "f" = some st1 ∧
        lookupFunction st1 "f" = some fd ∧
        InlineModifier.visitArguments 29 ""
          (fd.parameters.map (fun p => fd.name ++ "_" ++ p.name))
          (fd.parameters.map (fun p => p.type)) 0 (doInlineFlag "" "f" fd) [] st1 exC3Args =
          some r ∧
        (doInlineFlag "" "f" fd = true →
          ∃ fd2 rv prs rc, lookupFunction r.2.2 "f" = some fd2 ∧
            fd2.returnVariables.head? = some rv ∧
            buildReplacements fd2.parameters r.1 = some prs ∧
            BodyCopier.copyStatementList 29 (fd2.name ++ "_")
              ((rv.name, (r.2.2.nameDispenser.newName (fd2.name ++ "_" ++ rv.name)).1) :: prs)
              (r.2.2.nameDispenser.newName (fd2.name ++ "_" ++ rv.name)).2 fd2.body = some rc ∧
            e' = .identifier (r.2.2.nameDispenser.newName (fd2.name ++ "_" ++ rv.name)).1 ∧
            pfx = r.2.1 ++
              [Statement.variableDeclaration
                [⟨(r.2.2.nameDispenser.newName (fd2.name ++ "_" ++ rv.name)).1, rv.type⟩] none,
               Statement.block rc.1] ∧
            st' = { r.2.2 with nameDispenser := rc.2.2 }) := by
  refine ⟨_, _, _, rfl, ?_⟩
  exact claim_C2_inline_emission 29 "" exC3State "f" exC3Args _ _ _ rfl

/-- Witness for C5: a for-loop whose condition is an eligible call is left
with that condition untouched and hoists nothing. -/
theorem claim_C5_witness :
    ∃ rpre rpost rbody,
      InlineModifier.visitBlock 1 "" exC3State [] = some rpre ∧
      InlineModifier.visitBlock 1 "" rpre.2 [] = some rpost ∧
      InlineModifier.visitBlock 1 "" rpost.2 [] = some rbody ∧
      (Statement.forLoop [] (.functionCall "g" [.identifier "b"]) [] [],
        ([] : List Statement), exC3State) =
        (Statement.forLoop rpre.1 (.functionCall "g" [.identifier "b"]) rpost.1 rbody.1, [],
          rbody.2) :=
  claim_C5_loop_condition_excluded 1 "" exC3State [] (.functionCall "g" [.identifier "b"]) [] []
    (.forLoop [] (.functionCall "g" [.identifier "b"]) [] [], [], exC3State) rfl

/-- Witness for C6: skipping an unknown name is a no-op; handling `f` removes
it from the work-list for good; draining empties the work-list. -/
theorem claim_C6_witness :
    FullInliner.handleFunction 6 exC3State "nope" = some exC3State ∧
    (∃ st', FullInliner.handleFunction 30 exC3State "f" = some st' ∧
      "f" ∉ st'.functionsToVisit) ∧
    (∃ st', FullInliner.drain 6 exC3State = some st' ∧ st'.functionsToVisit = []) := by
  refine ⟨claim_C6_handleFunction_once.1 5 exC3State "nope" (by decide), ?_, ?_⟩
  · obtain ⟨st', h⟩ : ∃ st', FullInliner.handleFunction 30 exC3State "f" = some st' := ⟨_, rfl⟩
    exact ⟨st', h, claim_C6_handleFunction_once.2.2.1 30 exC3State "f" st' (by decide) h⟩
  · obtain ⟨st', h⟩ : ∃ st', FullInliner.drain 6 exC3State = some st' := ⟨_, rfl⟩
    exact ⟨st', h, claim_C6_handleFunction_once.2.2.2 6 exC3State st' h⟩

/-- Witness for C8: the two-return call `tw(v)` stays a call, its trivial
argument is untouched, and nothing is hoisted. -/
theorem claim_C8_witness :
    InlineModifier.visitExpression 30 "" exC8State exC8Call =
      some (.functionCall "tw" [.identifier "v"], [], exC8State1) ∧
    ∃ r, InlineModifier.visitArguments 29 ""
        (exC8FD.parameters.map (fun p => exC8FD.name ++ "_" ++ p.name))
        (exC8FD.parameters.map (fun p => p.type)) 0 (doInlineFlag "" "tw" exC8FD) []
        exC8State1 [.identifier "v"] = some r ∧
      Expression.functionCall "tw" [.identifier "v"] = Expression.functionCall "tw" r.1 ∧
      ([] : List Statement) = r.2.1 ∧ r.1 = [.identifier "v"] := by
  refine ⟨rfl, ?_⟩
  obtain ⟨st1, fd, r, h1, h2, h3, himp⟩ :=
    claim_C8_no_inline_frame 29 "" exC8State "tw" [.identifier "v"]
      (.functionCall "tw" [.identifier "v"]) [] exC8State1 rfl
  have hcomp : FullInliner.handleFunction 29 exC8State "tw" = some exC8State1 := rfl
  obtain rfl : st1 = exC8State1 := (Option.some.inj (hcomp.symm.trans h1)).symm
  have hcomp2 : lookupFunction exC8State1 "tw" = some exC8FD := rfl
  obtain rfl : fd = exC8FD := (Option.some.inj (hcomp2.symm.trans h2)).symm
  obtain ⟨he, hp, _, hargs⟩ := himp (by decide)
  exact ⟨r, h3, he, hp, hargs rfl⟩
